import Mathlib

/-!
Verification of the fumines simulation core: a shallow embedding of the
game's grid/match/timeline engine, its input-handling state machine, and
its 4-bit piece-rotation bitboard, together with theorems settling the
specification's claims about them.

Conventions of the embedding:
* TypeScript arrays become `List`s; in-place index assignment becomes
  `List.set` (a no-op out of bounds, as the guarded writes in the source
  never go out of bounds), `splice(i, 1)` becomes `List.eraseIdx`,
  `splice(ROWS, len - ROWS)` becomes `List.take ROWS`.
* JavaScript numbers used for time, progress and row positions become `ℚ`;
  integer quantities (columns, tick counters, color values, bit masks)
  become `ℕ` or `ℤ`. JavaScript `%` (truncating remainder) on integers
  becomes `Int.tmod`.
* `null`-or-number cells of the match grid become `Option ℚ`.
* Key sets become `List String`; `Set.has` becomes `List.contains`.
-/

namespace Fumines

/-- Standard number of rows in the grid (`config.ts`). -/
def ROWS : Nat := 10

/-- Standard number of columns in the grid (`config.ts`). -/
def COLS : Nat := 16

/-- Number of game ticks to wait when a key is held down before triggering
auto-repeat movement (`config.ts`). -/
def DAS_TICKS : Nat := 10

/-- Number of game ticks between each auto-repeat movement when a key is
held down (`config.ts`). -/
def ARR_TICKS : Nat := 1

/-! ## 4-bit bitboard rotation (`piece.ts`, `rotate`) -/

namespace rotate

/-- Rotate a 4-bit bitboard representing a 2x2 piece clockwise
(`rotate.right`). -/
def right (config : Nat) : Nat :=
  let topLeft := (config &&& 0b1000) >>> 3
  let topRight := (config &&& 0b0100) >>> 2
  let bottomLeft := (config &&& 0b0010) >>> 1
  let bottomRight := config &&& 0b0001
  (bottomLeft <<< 3) ||| (topLeft <<< 2) ||| (bottomRight <<< 1) ||| topRight

/-- Rotate a 4-bit bitboard representing a 2x2 piece counterclockwise
(`rotate.left`). -/
def left (config : Nat) : Nat :=
  let topLeft := (config &&& 0b1000) >>> 3
  let topRight := (config &&& 0b0100) >>> 2
  let bottomLeft := (config &&& 0b0010) >>> 1
  let bottomRight := config &&& 0b0001
  (topRight <<< 3) ||| (bottomRight <<< 2) ||| (topLeft <<< 1) ||| bottomLeft

/-- Rotate a 4-bit bitboard representing a 2x2 piece 180 degrees
(`rotate.twice`). -/
def twice (config : Nat) : Nat :=
  let topLeft := (config &&& 0b1000) >>> 3
  let topRight := (config &&& 0b0100) >>> 2
  let bottomLeft := (config &&& 0b0010) >>> 1
  let bottomRight := config &&& 0b0001
  (bottomRight <<< 3) ||| (bottomLeft <<< 2) ||| (topRight <<< 1) ||| topLeft

/-- Apply the normalized number of quarter turns; the `turns = 0` case and
the unreachable `default` branch of the `switch` both return the input
unchanged. -/
def byTurns (config : Nat) (turns : Nat) : Nat :=
  match turns with
  | 1 => right config
  | 2 => twice config
  | 3 => left config
  | _ => config

/-- Rotate a 4-bit bitboard given its (signed, unbounded) rotation state
(`rotate.by`): the turn count is normalized via `(4 + (rotation % 4)) % 4`
with JavaScript truncating remainder. -/
def by' (config : Nat) (rotation : Int) : Nat :=
  let turns := ((4 + rotation.tmod 4).tmod 4).toNat
  byTurns config turns

end rotate

/-! ## Handling state machine (`movement.ts`) -/

/-- All possible handling states (`HandlingState`): `idle`, `started`
(waiting for DAS to expire), `autoRepeat`, `dropping`, and
`droppingDasBuffer` (DAS buffered while a drop animation plays).
Directions are `1` for right, `-1` for left. -/
inductive HandlingState where
  | idle : HandlingState
  | started (direction : Int) (ticksHeld : Nat) : HandlingState
  | autoRepeat (direction : Int) (ticksSinceLastMove : Nat) : HandlingState
  | dropping : HandlingState
  | droppingDasBuffer (direction : Int) (ticksHeld : Nat) : HandlingState
  deriving DecidableEq, Repr

/-- Possible actions resulting from handling logic (`Action`). -/
inductive Action where
  | move (direction : Int) : Action
  | rotateAct (direction : Int) : Action
  | startDrop : Action
  deriving DecidableEq, Repr

/-- If the conditions are met, injects a rotation action into the given
actions array (`maybeAddRotate`): both rotate keys pressed cancel. -/
def maybeAddRotate (justPressed : List String) (actions : List Action) :
    List Action :=
  let aPressed := justPressed.contains "a"
  let dPressed := justPressed.contains "d"
  if aPressed && dPressed then actions
  else if aPressed then Action.rotateAct (-1) :: actions
  else if dPressed then Action.rotateAct 1 :: actions
  else actions

/-- Apply the handling logic for piece movement based on the current
handling state and pressed keys (`applyHandling`). Returns the updated
state and the ordered list of actions emitted this tick. -/
def applyHandling (handlingState : HandlingState) (keysHeld : List String)
    (justPressed : List String) : HandlingState × List Action :=
  let leftPressed := keysHeld.contains "ArrowLeft"
  let rightPressed := keysHeld.contains "ArrowRight"
  let downPressed := justPressed.contains "ArrowDown"
  match handlingState with
  | .idle =>
    let actions := maybeAddRotate justPressed []
    if downPressed then (.dropping, actions ++ [Action.startDrop])
    else if leftPressed && rightPressed then (handlingState, actions)
    else if leftPressed then (.started (-1) 0, actions ++ [Action.move (-1)])
    else if rightPressed then (.started 1 0, actions ++ [Action.move 1])
    else (handlingState, actions)
  | .started direction ticksHeld =>
    let actions := maybeAddRotate justPressed []
    if downPressed then (.dropping, actions ++ [Action.startDrop])
    else if (decide (direction = -1) && leftPressed)
        || (decide (direction = 1) && rightPressed) then
      let newTicksHeld := ticksHeld + 1
      if DAS_TICKS ≤ newTicksHeld then
        (.autoRepeat direction 0, actions ++ [Action.move direction])
      else (.started direction newTicksHeld, actions)
    else (.idle, actions)
  | .autoRepeat direction ticksSinceLastMove =>
    let actions := maybeAddRotate justPressed []
    if downPressed then (.dropping, actions ++ [Action.startDrop])
    else if (decide (direction = -1) && leftPressed)
        || (decide (direction = 1) && rightPressed) then
      let newTicksSinceLastMove := ticksSinceLastMove + 1
      if ARR_TICKS ≤ newTicksSinceLastMove then
        (.autoRepeat direction 0, actions ++ [Action.move direction])
      else (.autoRepeat direction newTicksSinceLastMove, actions)
    else (.idle, actions)
  | .dropping =>
    if leftPressed && rightPressed then (handlingState, [])
    else if leftPressed then (.droppingDasBuffer (-1) 1, [])
    else if rightPressed then (.droppingDasBuffer 1 1, [])
    else (handlingState, [])
  | .droppingDasBuffer direction ticksHeld =>
    if (decide (direction = -1) && leftPressed)
        || (decide (direction = 1) && rightPressed) then
      (.droppingDasBuffer direction (ticksHeld + 1), [])
    else (.dropping, [])

/-- Apply the state logic when a piece has finished dropping
(`applyDropCompletion`); returns only a state, never an action. -/
def applyDropCompletion (handlingState : HandlingState) : HandlingState :=
  match handlingState with
  | .dropping => .idle
  | .droppingDasBuffer direction ticksHeld =>
    if DAS_TICKS ≤ ticksHeld then .autoRepeat direction 0
    else .started direction ticksHeld
  | _ => handlingState

/-- Number of `move` actions in an action list. -/
def countMoves (actions : List Action) : Nat :=
  (actions.filter fun a => match a with | .move _ => true | _ => false).length

/-- Run the handling state machine from `idle` while only ArrowRight is
held: on tick 1 ArrowRight is just pressed, on later ticks it is held with
nothing newly pressed. Returns the state after `n` ticks together with the
total number of `move` actions emitted so far. -/
def holdRightRun : Nat → HandlingState × Nat
  | 0 => (.idle, 0)
  | n + 1 =>
    let r := holdRightRun n
    let justPressed := if n = 0 then ["ArrowRight"] else []
    let step := applyHandling r.1 ["ArrowRight"] justPressed
    (step.1, r.2 + countMoves step.2)

/-- Run the handling state machine from `idle` while exactly one
direction key `key` is held: on tick 1 it is just pressed, on later ticks
it is held with nothing newly pressed. Returns the state after `n` ticks
together with the total number of `move` actions emitted so far. -/
def holdKeyRun (key : String) : Nat → HandlingState × Nat
  | 0 => (.idle, 0)
  | n + 1 =>
    let r := holdKeyRun key n
    let justPressed := if n = 0 then [key] else []
    let step := applyHandling r.1 [key] justPressed
    (step.1, r.2 + countMoves step.2)

/-! ## Grid and match engine (`game_state.ts`) -/

/-- Grid state in column-major order: `COLS` columns; each inner list is
the stack of raw color values in that column, index 0 being the
bottom-most placed cell. -/
abbrev Grid := List (List Nat)

/-- Match grid parallel to the grid: `none` means the cell is not part of
a match, `some p` is the timeline's accrued progress toward clearing it. -/
abbrev MatchGrid := List (List (Option ℚ))

/-- Read a match cell; out-of-range reads give `none`, matching reads of
absent array entries in the source. -/
def getCell (matched : MatchGrid) (c r : Nat) : Option ℚ :=
  (matched.getD c []).getD r none

/-- First loop of `updateMatches`: pad every match column with `null`
entries until it is as long as the corresponding grid column. -/
def growMatched (grid : Grid) (matched : MatchGrid) : MatchGrid :=
  (List.range matched.length).map fun c =>
    matched.getD c [] ++
      List.replicate ((grid.getD c []).length - (matched.getD c []).length) none

/-- Assignment `if (matched[c][r] === null) matched[c][r] = 0` of
`updateMatches`: a newly matched cell starts at progress 0, one already
carrying progress keeps its value. -/
def initCell : Option ℚ → Option ℚ
  | none => some 0
  | some p => some p

/-- Perform the null-guarded progress-0 write at one match cell. -/
def markMatched (matched : MatchGrid) (c r : Nat) : MatchGrid :=
  matched.set c
    ((matched.getD c []).set r (initCell ((matched.getD c []).getD r none)))

/-- Detection loops of `updateMatches`: for every adjacent column pair
`(c, c+1)` and row `r` below the overlap of their heights minus one, flag
the four cells of the 2x2 block when all four colors agree. -/
def detectMatches (grid : Grid) (matched : MatchGrid) : MatchGrid :=
  (List.range (COLS - 1)).foldl (fun m c =>
    let colHeight := (grid.getD c []).length
    let nextColHeight := (grid.getD (c + 1) []).length
    let maxRow := min colHeight nextColHeight - 1
    (List.range maxRow).foldl (fun m r =>
      let color := (grid.getD c []).getD r 0
      if color = (grid.getD c []).getD (r + 1) 0 ∧
          color = (grid.getD (c + 1) []).getD r 0 ∧
          color = (grid.getD (c + 1) []).getD (r + 1) 0 then
        markMatched (markMatched (markMatched (markMatched m c r)
          c (r + 1)) (c + 1) r) (c + 1) (r + 1)
      else m) m) matched

/-- Specification-side predicate: the 2x2 block whose bottom-left corner
is `(c, r)` lies within the detection loop bounds and its four cells hold
the same color. -/
def sameColorBlock (grid : Grid) (c r : Nat) : Bool :=
  decide (c + 1 < COLS) &&
    decide (r + 1 < min (grid.getD c []).length (grid.getD (c + 1) []).length) &&
    decide ((grid.getD c []).getD r 0 = (grid.getD c []).getD (r + 1) 0 ∧
      (grid.getD c []).getD r 0 = (grid.getD (c + 1) []).getD r 0 ∧
      (grid.getD c []).getD r 0 = (grid.getD (c + 1) []).getD (r + 1) 0)

/-- Specification-side predicate: the cell `(c, r)` belongs to some
same-color 2x2 block, as one of its four corners. -/
def inSomeBlock (grid : Grid) (c r : Nat) : Bool :=
  sameColorBlock grid c r ||
    (decide (0 < r) && sameColorBlock grid c (r - 1)) ||
    (decide (0 < c) && sameColorBlock grid (c - 1) r) ||
    (decide (0 < c) && decide (0 < r) && sameColorBlock grid (c - 1) (r - 1))

/-- All match-cell positions written by the detection loops, in loop
order: four corner cells for every same-color block. -/
def matchPositions (grid : Grid) : List (Nat × Nat) :=
  (List.range (COLS - 1)).flatMap fun c =>
    (List.range
        (min (grid.getD c []).length (grid.getD (c + 1) []).length - 1)).flatMap
      fun r =>
        if sameColorBlock grid c r then
          [(c, r), (c, r + 1), (c + 1, r), (c + 1, r + 1)]
        else []

/-! ## Timeline sweep and cluster removal (`State.tick`) -/

/-- Integer column indices visited by `for (col = lo; col <= hi; ++col)`;
empty when `hi < lo`. -/
def intRange (lo hi : Int) : List Int :=
  (List.range (hi + 1 - lo).toNat).map fun (i : Nat) => lo + (i : Int)

/-- Add sweep progress to every numeric cell of one column; a negative or
out-of-range column index touches nothing, matching the optional-chained
array access in the source. -/
def addProgress (matched : MatchGrid) (col : Int) (progress : ℚ) :
    MatchGrid :=
  if 0 ≤ col then
    matched.set col.toNat ((matched.getD col.toNat []).map fun v =>
      match v with
      | some p => some (p + progress)
      | none => none)
  else matched

/-- Sweep accrual loop of `tick`: iterate columns from `floor(previous)`
to `floor(current)` inclusive, adding
`current - max(column, previous)` to every numeric cell of each column. -/
def sweepColumns (matched : MatchGrid) (previous current : ℚ) : MatchGrid :=
  (intRange (Rat.floor previous) (Rat.floor current)).foldl (fun m col =>
    addProgress m col (current - max (col : ℚ) previous)) matched

/-- One step of the cluster scan: extend the last group when this column
continues it, otherwise open a new single-column group. -/
def pushCol (groups : List (Nat × Nat)) (c : Nat) : List (Nat × Nat) :=
  match groups.getLast? with
  | some (s, e) =>
    if c = e + 1 then groups.dropLast ++ [(s, e + 1)] else groups ++ [(c, c)]
  | none => groups ++ [(c, c)]

/-- Cluster scan of `tick`: maximal runs of contiguous columns containing
at least one numeric (matched) cell, as `(start, end)` pairs. -/
def findGroups (matched : MatchGrid) : List (Nat × Nat) :=
  (List.range COLS).foldl (fun groups c =>
    if (matched.getD c []).any (·.isSome) then pushCol groups c else groups) []

/-- Test `typeof v === 'number' && v >= 1`: the cell is matched and has
accrued full sweep progress. -/
def isRemovable : Option ℚ → Bool
  | some p => decide (1 ≤ p)
  | none => false

/-- Row indices of a match column holding progress ≥ 1, highest first
(the source builds the ascending index list and reverses it). -/
def rowsToRemove (mcol : List (Option ℚ)) : List Nat :=
  ((List.range mcol.length).filter fun r =>
    isRemovable (mcol.getD r none)).reverse

/-- Apply `splice(row, 1)` for each row index in order. -/
def removeRows (col : List α) (rows : List Nat) : List α :=
  rows.foldl (fun l r => l.eraseIdx r) col

/-- Body of the per-column removal loop: if the column holds a cell with
progress ≥ 1, remove all such cells from both the grid column and the
match column (highest row first) and record that a removal happened. -/
def clearColumn (acc : Grid × MatchGrid × Bool) (col : Nat) :
    Grid × MatchGrid × Bool :=
  if (acc.2.1.getD col []).any isRemovable then
    let rows := rowsToRemove (acc.2.1.getD col [])
    (acc.1.set col (removeRows (acc.1.getD col []) rows),
      acc.2.1.set col (removeRows (acc.2.1.getD col []) rows),
      true)
  else acc

/-- Process one cluster in the removal loop of `tick`: if the timeline has
reached `end + 1`, clear the removable cells of every column of the
cluster. -/
def clearGroupCols (current : ℚ) (acc : Grid × MatchGrid × Bool)
    (group : Nat × Nat) : Grid × MatchGrid × Bool :=
  if (group.2 : ℚ) + 1 ≤ current then
    (List.range' group.1 (group.2 + 1 - group.1)).foldl clearColumn acc
  else acc

/-- Removal loop of `tick` over all clusters. -/
def removalLoop (current : ℚ) (grid : Grid) (matched : MatchGrid)
    (groups : List (Nat × Nat)) : Grid × MatchGrid × Bool :=
  groups.foldl (clearGroupCols current) (grid, matched, false)

/-- Specification-side description of one cleared grid column: exactly the
cells whose parallel match cell carries progress ≥ 1 are removed, the
rest keep their order. -/
def removedColumn (gcol : List Nat) (mcol : List (Option ℚ)) : List Nat :=
  ((gcol.zip mcol).filter fun av => !isRemovable av.2).map Prod.fst

/-- Specification-side description of one cleared match column. -/
def removedMatchColumn (mcol : List (Option ℚ)) : List (Option ℚ) :=
  mcol.filter fun v => !isRemovable v

/-! ## Pieces (`piece.ts`) -/

/-- Falling piece: column of its left side, row of its top side, two-color
palette, 4-bit configuration mask, and unbounded rotation counter. The
constructor initializes `rotation` to 0. -/
structure Piece where
  column : Int
  row : ℚ
  color1 : Nat
  color2 : Nat
  config : Nat
  rotation : Int
  deriving DecidableEq, Repr

/-- Piece constructor (`new Piece(column, row, colors, config)`):
`rotation` starts at 0. -/
def Piece.new (column : Int) (row : ℚ) (color1 color2 config : Nat) :
    Piece :=
  { column, row, color1, color2, config, rotation := 0 }

/-- Move the piece to the left or right by one column (`Piece.move`); the
bounds are enforced by the caller, not here. -/
def Piece.move (p : Piece) (direction : Int) : Piece :=
  { p with column := p.column + direction }

/-- Rotate the piece (`Piece.rotate`): the rotation counter is unbounded. -/
def Piece.rotate (p : Piece) (direction : Int) : Piece :=
  { p with rotation := p.rotation + direction }

/-- Piece that has been dropped and is falling as two independent
columns, each with its own 2-bit mask and fractional row. -/
structure DroppedPiece where
  color1 : Nat
  color2 : Nat
  configLeft : Nat
  configRight : Nat
  column : Int
  rowLeft : ℚ
  rowRight : ℚ
  deriving DecidableEq, Repr

/-- Derivation of a `DroppedPiece` from a piece (`new DroppedPiece(piece)`):
rotate the 4-bit mask by the piece's current rotation, then split it into
left and right 2-bit column masks. -/
def DroppedPiece.fromPiece (piece : Piece) : DroppedPiece :=
  let newConfig := rotate.by' piece.config piece.rotation
  { color1 := piece.color1
    color2 := piece.color2
    configLeft := ((newConfig &&& 0b1000) >>> 2) ||| ((newConfig &&& 0b0010) >>> 1)
    configRight := ((newConfig &&& 0b0100) >>> 1) ||| (newConfig &&& 0b0001)
    column := piece.column
    rowLeft := piece.row
    rowRight := piece.row }

/-- Colors of each dropped column read bottom-to-top
(`DroppedPiece.columnColors`). -/
def DroppedPiece.columnColors (d : DroppedPiece) : List Nat × List Nat :=
  let colorByIdx := [d.color1, d.color2]
  let topLeft := (d.configLeft &&& 0b10) >>> 1
  let bottomLeft := d.configLeft &&& 0b01
  let topRight := (d.configRight &&& 0b10) >>> 1
  let bottomRight := d.configRight &&& 0b01
  ([colorByIdx.getD bottomLeft 0, colorByIdx.getD topLeft 0],
    [colorByIdx.getD bottomRight 0, colorByIdx.getD topRight 0])

/-- Active piece slot: a not-yet-dropped `Piece` or a falling
`DroppedPiece`. -/
inductive CurrentPiece where
  | piece (p : Piece) : CurrentPiece
  | dropped (d : DroppedPiece) : CurrentPiece
  deriving DecidableEq, Repr

/-! ## Game state (`game_state.ts`, class `State`) -/

/-- Lumines game state: grid, parallel match grid, active piece, piece
queue, elapsed time, BPM, handling state, previously held keys, and the
previous timeline position. -/
structure State where
  grid : Grid
  matched : MatchGrid
  piece : CurrentPiece
  queue : List Piece
  time : ℚ
  bpm : ℚ
  movement : HandlingState
  previousKeys : List String
  previousTimelinePosition : ℚ
  deriving DecidableEq, Repr

/-- Height of the given column in the grid (`State.columnHeight`). -/
def State.columnHeight (s : State) (column : Nat) : Nat :=
  (s.grid.getD column []).length

/-- Move the current piece left or right (`State.move`): a no-op while a
piece is dropping, and clamped at the grid edges (`0` and `COLS - 2`). -/
def State.move (s : State) (direction : Int) : State :=
  match s.piece with
  | .piece p =>
    if (direction = -1 ∧ p.column ≤ 0) ∨
        (direction = 1 ∧ (COLS : Int) - 2 ≤ p.column) then s
    else { s with piece := .piece (p.move direction) }
  | .dropped _ => s

/-- Rotate the current piece (`State.rotate`): a no-op while dropping. -/
def State.rotate (s : State) (direction : Int) : State :=
  match s.piece with
  | .piece p => { s with piece := .piece (p.rotate direction) }
  | .dropped _ => s

/-- Begin dropping the current piece (`State.startDrop`): a no-op if it is
already dropping. -/
def State.startDrop (s : State) : State :=
  match s.piece with
  | .piece p => { s with piece := .dropped (DroppedPiece.fromPiece p) }
  | .dropped _ => s

/-- Appending block of `finishDrop`: push each dropped column's colors
(bottom first) onto its grid column. -/
def pushPieceColumns (grid : Grid) (d : DroppedPiece) : Grid :=
  let colors := d.columnColors
  let c := d.column.toNat
  let grid1 := grid.set c (grid.getD c [] ++ colors.1)
  grid1.set (c + 1) (grid1.getD (c + 1) [] ++ colors.2)

/-- Cut-off loop of `finishDrop`: `splice(ROWS, length - ROWS)` on every
column, keeping only the bottom `ROWS` cells. -/
def trimColumns (grid : Grid) : Grid :=
  (List.range COLS).foldl (fun g cc => g.set cc ((g.getD cc []).take ROWS)) grid

/-- Commit the dropped piece (`State.finishDrop`): append each column's
colors to the grid, cut every column off at `ROWS` entries, re-run match
detection, pop the next piece from the queue, append the externally
generated `newPiece` (randomness is external to the core), and apply the
drop-completion transition to the handling state. A no-op when the active
piece has not been dropped. The empty-queue branch is unreachable in the
running game (the queue is created with 16 entries and its length is
preserved); it is modelled as a no-op. -/
def State.finishDrop (s : State) (newPiece : Piece) : State :=
  match s.piece with
  | .piece _ => s
  | .dropped d =>
    match s.queue with
    | [] => s
    | next :: rest =>
      let grid3 := trimColumns (pushPieceColumns s.grid d)
      { s with
        grid := grid3
        matched := detectMatches grid3 (growMatched grid3 s.matched)
        piece := .piece next
        queue := rest ++ [newPiece]
        movement := applyDropCompletion s.movement }

/-- Recompute the match grid from scratch (`State.resetMatches`). -/
def State.resetMatches (s : State) : State :=
  let s' : State := { s with matched := List.replicate COLS [] }
  { s' with matched := detectMatches s'.grid (growMatched s'.grid s'.matched) }

/-- Find all 2x2 squares to be cleared from the grid
(`State.updateMatches`). -/
def State.updateMatches (s : State) : State :=
  { s with matched := detectMatches s.grid (growMatched s.grid s.matched) }

/-- Cluster-removal phase of `tick` (lines after the sweep): find
clusters, clear the eligible ones, and if anything was removed reset the
match grid and re-run detection against the post-removal grid. -/
def State.clearPhase (s : State) (current : ℚ) : State :=
  let groups := findGroups s.matched
  let r := removalLoop current s.grid s.matched groups
  let s' := { s with grid := r.1, matched := r.2.1 }
  if r.2.2 then s'.resetMatches else s'

/-- Apply one emitted action to the state, as the action loop of `tick`
does. -/
def applyAction (s : State) (action : Action) : State :=
  match action with
  | .rotateAct d => s.rotate d
  | .move d => s.move d
  | .startDrop => s.startDrop

/-- Truncation of a rational toward zero, as JavaScript's implicit
float-to-integer truncation in `%`. -/
def ratTrunc (x : ℚ) : Int :=
  if 0 ≤ x then ⌊x⌋ else ⌈x⌉

/-- JavaScript remainder `x % y` on rationals (sign follows the
dividend). -/
def jsMod (x y : ℚ) : ℚ :=
  x - y * (ratTrunc (x / y) : ℚ)

/-- Falling-piece physics of `tick`: both columns fall by 0.75 rows, each
lands when its row reaches `ROWS - columnHeight - 2`, and the piece is
committed once both have landed. -/
def State.physicsStep (s : State) (newPiece : Piece) : State :=
  match s.piece with
  | .piece _ => s
  | .dropped d =>
    let d1 := { d with rowLeft := d.rowLeft + 3/4, rowRight := d.rowRight + 3/4 }
    let leftColumnHeight := s.columnHeight d1.column.toNat
    let rightColumnHeight := s.columnHeight (d1.column.toNat + 1)
    let leftTarget : ℚ := (ROWS : ℚ) - leftColumnHeight - 2
    let rightTarget : ℚ := (ROWS : ℚ) - rightColumnHeight - 2
    let leftLanded := leftTarget ≤ d1.rowLeft
    let rightLanded := rightTarget ≤ d1.rowRight
    let d2 := { d1 with
      rowLeft := if leftLanded then leftTarget else d1.rowLeft
      rowRight := if rightLanded then rightTarget else d1.rowRight }
    let s2 := { s with piece := .dropped d2 }
    if leftLanded ∧ rightLanded then s2.finishDrop newPiece else s2

/-- One simulation tick (`State.tick`): apply handling to the held-keys
snapshot, apply the emitted actions, advance the falling piece, sweep the
timeline over the match grid, and run the cluster-removal phase. The
caller advances `time` after the tick, as `main.ts` does. -/
def State.tick (s : State) (keys : List String) (newPiece : Piece) : State :=
  let keysHeld := keys
  let justPressed := keys.filter fun k => !(s.previousKeys.contains k)
  let result := applyHandling s.movement keysHeld justPressed
  let s1 := { s with movement := result.1 }
  let s2 := result.2.foldl applyAction s1
  let s3 := { s2 with previousKeys := keys }
  let s4 := s3.physicsStep newPiece
  let current := jsMod ((s4.time / 1000) * (s4.bpm / 60) * 2) (COLS : ℚ)
  let s5 := { s4 with
    matched := sweepColumns s4.matched s4.previousTimelinePosition current }
  let s6 := s5.clearPhase current
  { s6 with previousTimelinePosition := current }

/-! ## Well-formedness of the cluster list, and sample data -/

/-- Invariant of the cluster scan after the columns below `c` have been
processed: every group is a nonempty interval ending below `c`, and
successive groups are separated by at least one unmatched column. -/
def GroupsWF (groups : List (Nat × Nat)) (c : Nat) : Prop :=
  (∀ g ∈ groups, g.1 ≤ g.2 ∧ g.2 < c) ∧
    groups.Pairwise fun a b => a.2 + 1 < b.1

/-- Sample piece used by the witness theorems. -/
def samplePiece : Piece := Piece.new 7 (-2) 0x35a99a 0xff5aae 11

/-- Sample dropped piece used by the witness theorems. -/
def sampleDropped : DroppedPiece := DroppedPiece.fromPiece samplePiece

/-- Sample match grid with a single matched cluster occupying columns 3
and 4, all cells at full sweep progress. -/
def sampleMatched : MatchGrid :=
  [[], [], [], [some 1, some 1, none], [some 1, none], [], [], [], [], [],
    [], [], [], [], [], []]

/-- Sample grid parallel to `sampleMatched`. -/
def sampleGrid : Grid :=
  [[], [], [], [5, 5, 7], [5, 5], [], [], [], [], [], [], [], [], [], [], []]

/-- Sample match grid with numeric cells only in the wraparound columns 0
and 15. -/
def wrapMatched : MatchGrid :=
  [[some 0]] ++ List.replicate 14 [] ++ [[some 0]]

/-- Sample game state holding the matched cluster of `sampleMatched`,
with a dropped piece in flight. -/
def sampleState : State :=
  { grid := sampleGrid
    matched := sampleMatched
    piece := .dropped sampleDropped
    queue := [samplePiece]
    time := 0
    bpm := 138
    movement := .idle
    previousKeys := []
    previousTimelinePosition := 0 }

/-- Sample game state holding an undropped piece. -/
def samplePieceState : State :=
  { sampleState with piece := .piece samplePiece }

/-! ## Theorems: bitboard rotation (claim C9) -/

/-- Helper: the turn normalization `(4 + (rotation % 4)) % 4` written with
JavaScript truncating remainder agrees with the Euclidean remainder. -/
theorem tmod_turn_norm (n : Int) : (4 + n.tmod 4).tmod 4 = n % 4 := by
  have hneg : ∀ k : Int, k < 0 → k.tmod 4 = -((-k).tmod 4) := by
    intro k hk
    cases k with
    | ofNat j => exact absurd hk (Int.ofNat_nonneg j).not_lt
    | negSucc m => rfl
  rcases le_or_lt 0 n with h | h
  · rw [Int.tmod_eq_emod h (by norm_num)]
    rw [Int.tmod_eq_emod (by omega) (by norm_num)]
    omega
  · rw [hneg n h, Int.tmod_eq_emod (a := -n) (by omega) (by norm_num)]
    rw [Int.tmod_eq_emod (by omega) (by norm_num)]
    omega

/-- Helper: `rotate.by` applies the Euclidean remainder of the rotation
count as a quarter-turn count. -/
theorem rotate_by_eq_byTurns (config : Nat) (n : Int) :
    rotate.by' config n = rotate.byTurns config (n % 4).toNat := by
  unfold rotate.by'
  rw [tmod_turn_norm]

/-- Helper: quarter-turn counts that sum to a multiple of four cancel on
every 4-bit mask. -/
theorem byTurns_cancel : ∀ m < 16, ∀ a < 4, ∀ b < 4, (a + b) % 4 = 0 →
    rotate.byTurns (rotate.byTurns m a) b = m := by decide

/-- C9: for every 4-bit configuration mask `m < 16` and every integer
rotation count `n`, rotating by `n` and then by `-n` returns `m`, and
rotating by four clockwise turns is the identity. -/
theorem rotate_by_roundtrip (m : Nat) (hm : m < 16) (n : Int) :
    rotate.by' (rotate.by' m n) (-n) = m ∧ rotate.by' m 4 = m := by
  constructor
  · rw [rotate_by_eq_byTurns, rotate_by_eq_byTurns]
    exact byTurns_cancel m hm _ (by omega) _ (by omega) (by omega)
  · rfl

/-- Witness for C9 at a concrete mask and rotation count. -/
theorem rotate_by_roundtrip_witness :
    11 < 16 ∧ (rotate.by' (rotate.by' 11 (-7)) (-(-7)) = 11 ∧
      rotate.by' 11 4 = 11) :=
  ⟨by decide, rotate_by_roundtrip 11 (by decide) (-7)⟩

/-! ## Theorems: handling state machine (claims C2, C3, C4) -/

/-- C2 counterexample: on the `DAS_TICKS`-th consecutive held tick the
machine is still in `started` with `ticksHeld = DAS_TICKS - 1`, only one
move has been emitted in total, and the state has not become `autoRepeat`;
the claimed second move on tick `DAS_TICKS` does not happen. -/
theorem das_tick10_no_second_move :
    holdRightRun DAS_TICKS = (.started 1 9, 1) ∧
      (holdRightRun DAS_TICKS).2 ≠ 2 ∧
      (holdRightRun DAS_TICKS).1 ≠ .autoRepeat 1 0 := by decide

/-- C2 amended: holding exactly one direction key (ArrowRight with
direction 1, or ArrowLeft with direction -1) from `idle` emits exactly
one move over the first `DAS_TICKS` ticks (the immediate one on tick 1,
with the state on tick `k` being `started` with `ticksHeld = k - 1`), and
the second move fires on tick `DAS_TICKS + 1`, when the state becomes
`autoRepeat` for that direction. -/
theorem das_timing (key : String) (dir : Int)
    (hkey : (key, dir) = ("ArrowRight", 1) ∨ (key, dir) = ("ArrowLeft", -1))
    (k : Nat) (h1 : 1 ≤ k) (h2 : k ≤ DAS_TICKS) :
    ((holdKeyRun key k).2 = 1 ∧
        (holdKeyRun key k).1 = .started dir (k - 1)) ∧
      holdKeyRun key (DAS_TICKS + 1) = (.autoRepeat dir 0, 2) := by
  rcases hkey with h | h <;>
    rw [Prod.mk.injEq] at h <;>
    obtain ⟨rfl, rfl⟩ := h <;>
    refine ⟨?_, by decide⟩ <;>
    (revert h1 h2; revert k; decide)

/-- Witness for C2's amended theorem: ArrowRight at tick 5 and ArrowLeft
at tick 7. -/
theorem das_timing_witness :
    (((holdKeyRun "ArrowRight" 5).2 = 1 ∧
        (holdKeyRun "ArrowRight" 5).1 = .started 1 4) ∧
      holdKeyRun "ArrowRight" (DAS_TICKS + 1) = (.autoRepeat 1 0, 2)) ∧
    (((holdKeyRun "ArrowLeft" 7).2 = 1 ∧
        (holdKeyRun "ArrowLeft" 7).1 = .started (-1) 6) ∧
      holdKeyRun "ArrowLeft" (DAS_TICKS + 1) = (.autoRepeat (-1) 0, 2)) :=
  ⟨das_timing "ArrowRight" 1 (Or.inl rfl) 5 (by decide) (by decide),
    das_timing "ArrowLeft" (-1) (Or.inr rfl) 7 (by decide) (by decide)⟩

/-- C3: drop completion maps `dropping` to `idle`; maps
`droppingDasBuffer(dir, t)` to `autoRepeat(dir)` when `t ≥ DAS_TICKS`
(emitting no move: the function returns only a state, no actions) and to
`started(dir, t)` with the buffered tick count carried over when
`t < DAS_TICKS`; every other state is returned unchanged. -/
theorem applyDropCompletion_spec :
    applyDropCompletion .dropping = .idle ∧
    (∀ direction t, DAS_TICKS ≤ t →
      applyDropCompletion (.droppingDasBuffer direction t) =
        .autoRepeat direction 0) ∧
    (∀ direction t, t < DAS_TICKS →
      applyDropCompletion (.droppingDasBuffer direction t) =
        .started direction t) ∧
    applyDropCompletion .idle = .idle ∧
    (∀ direction t, applyDropCompletion (.started direction t) =
      .started direction t) ∧
    (∀ direction t, applyDropCompletion (.autoRepeat direction t) =
      .autoRepeat direction t) := by
  refine ⟨rfl, ?_, ?_, rfl, fun _ _ => rfl, fun _ _ => rfl⟩
  · intro d t h
    simp [applyDropCompletion, h]
  · intro d t h
    simp [applyDropCompletion, Nat.not_le.mpr h]

/-- Witness for C3 at a buffered count past DAS and one inside DAS. -/
theorem applyDropCompletion_spec_witness :
    applyDropCompletion (.droppingDasBuffer 1 12) = .autoRepeat 1 0 ∧
      applyDropCompletion (.droppingDasBuffer (-1) 3) = .started (-1) 3 :=
  ⟨applyDropCompletion_spec.2.1 1 12 (by decide),
    applyDropCompletion_spec.2.2.1 (-1) 3 (by decide)⟩

/-- C4 counterexample: in `started(1, 9)` a tick with both ArrowLeft and
ArrowRight held emits a move action and transitions to `autoRepeat`, not
back to `idle` with no action as claimed. -/
theorem both_keys_held_counterexample :
    applyHandling (.started 1 9) ["ArrowLeft", "ArrowRight"] [] =
      (.autoRepeat 1 0, [Action.move 1]) ∧
      (HandlingState.autoRepeat 1 0) ≠ .idle ∧
      [Action.move 1] ≠ ([] : List Action) := by decide

/-- C4 amended: with both direction keys held (and no just-pressed drop or
rotate keys), `idle` and `dropping` treat it as no horizontal input and
stay unchanged with no action, but `started` and `autoRepeat` treat it as
the same-direction key being held (DAS/ARR continues and moves can fire),
and `droppingDasBuffer` keeps buffering with `ticksHeld + 1`. -/
theorem both_keys_held (keysHeld justPressed : List String)
    (hl : keysHeld.contains "ArrowLeft" = true)
    (hr : keysHeld.contains "ArrowRight" = true)
    (hdown : justPressed.contains "ArrowDown" = false)
    (ha : justPressed.contains "a" = false)
    (hd : justPressed.contains "d" = false) :
    applyHandling .idle keysHeld justPressed = (.idle, []) ∧
    applyHandling .dropping keysHeld justPressed = (.dropping, []) ∧
    (∀ d t, d = 1 ∨ d = -1 →
      applyHandling (.started d t) keysHeld justPressed =
        if DAS_TICKS ≤ t + 1 then (.autoRepeat d 0, [Action.move d])
        else (.started d (t + 1), [])) ∧
    (∀ d t, d = 1 ∨ d = -1 →
      applyHandling (.autoRepeat d t) keysHeld justPressed =
        if ARR_TICKS ≤ t + 1 then (.autoRepeat d 0, [Action.move d])
        else (.autoRepeat d (t + 1), [])) ∧
    (∀ d t, d = 1 ∨ d = -1 →
      applyHandling (.droppingDasBuffer d t) keysHeld justPressed =
        (.droppingDasBuffer d (t + 1), [])) := by
  simp at hl hr hdown ha hd
  refine ⟨?_, ?_, ?_, ?_, ?_⟩
  · simp [applyHandling, maybeAddRotate, hl, hr, hdown, ha, hd]
  · simp [applyHandling, hl, hr]
  · rintro d t (rfl | rfl) <;>
      simp [applyHandling, maybeAddRotate, hl, hr, hdown, ha, hd]
  · rintro d t (rfl | rfl) <;>
      simp [applyHandling, maybeAddRotate, hl, hr, hdown, ha, hd]
  · rintro d t (rfl | rfl) <;> simp [applyHandling, hl, hr]

/-- Witness for C4's amended theorem in `started(1, 0)` with both keys
held. -/
theorem both_keys_held_witness :
    applyHandling (.started 1 0) ["ArrowLeft", "ArrowRight"] [] =
      (.started 1 1, []) := by
  have h := (both_keys_held ["ArrowLeft", "ArrowRight"] [] (by decide)
    (by decide) (by decide) (by decide) (by decide)).2.2.1 1 0 (Or.inl rfl)
  rw [h]
  decide

/-! ## Shared list lemmas -/

/-- Reading a defaulted entry of a list after an index assignment. -/
theorem getD_set (l : List α) (i : Nat) (a : α) (c : Nat) (d : α) :
    (l.set i a).getD c d = if c = i ∧ i < l.length then a else l.getD c d := by
  rcases Nat.lt_or_ge i l.length with h2 | h2
  · by_cases h1 : c = i
    · subst h1
      rw [if_pos ⟨rfl, h2⟩, List.getD_eq_getElem?_getD,
        List.getElem?_set_self h2, Option.getD_some]
    · rw [if_neg (by rintro ⟨h, -⟩; exact h1 h), List.getD_eq_getElem?_getD,
        List.getElem?_set_ne (fun h => h1 h.symm), List.getD_eq_getElem?_getD]
  · rw [List.set_eq_of_length_le h2, if_neg]
    rintro ⟨-, hh⟩
    omega

/-- Reading a defaulted entry of a mapped range. -/
theorem getD_map_range (n : Nat) (f : Nat → α) (c : Nat) (d : α) :
    ((List.range n).map f).getD c d = if c < n then f c else d := by
  by_cases h : c < n
  · rw [List.getD_eq_getElem?_getD, List.getElem?_map, List.getElem?_range h]
    simp [h]
  · rw [List.getD_eq_getElem?_getD, List.getElem?_eq_none_iff.mpr (by simpa using h)]
    simp [h]

/-- Folding over a flattened list of lists is the nested fold. -/
theorem foldl_flatMap (g : α → List β) (f : γ → β → γ) (l : List α)
    (init : γ) :
    (l.flatMap g).foldl f init =
      l.foldl (fun acc a => (g a).foldl f acc) init := by
  induction l generalizing init with
  | nil => rfl
  | cons a l ih => simp [List.foldl_append, ih]

/-- The executable rational floor agrees with the mathematical floor. -/
theorem ratFloor_eq (q : ℚ) : Rat.floor q = ⌊q⌋ := by
  rw [Rat.floor_def', Rat.floor_def]

/-! ## Theorems: state no-ops (claim C10) -/

/-- C10: while the active piece is a `DroppedPiece`, `move`, `rotate` and
`startDrop` leave the whole state unchanged; while it is a not-yet-dropped
`Piece`, `finishDrop` leaves the whole state unchanged. -/
theorem dropped_state_noops (s : State) (d : DroppedPiece) (p : Piece)
    (direction : Int) (newPiece : Piece) :
    (s.piece = .dropped d →
      s.move direction = s ∧ s.rotate direction = s ∧ s.startDrop = s) ∧
    (s.piece = .piece p → s.finishDrop newPiece = s) := by
  constructor
  · intro h
    refine ⟨?_, ?_, ?_⟩ <;> simp [State.move, State.rotate, State.startDrop, h]
  · intro h
    simp [State.finishDrop, h]

/-- Witness for C10 on the sample states. -/
theorem dropped_state_noops_witness :
    (sampleState.move 1 = sampleState ∧ sampleState.rotate 1 = sampleState ∧
      sampleState.startDrop = sampleState) ∧
      samplePieceState.finishDrop samplePiece = samplePieceState :=
  ⟨(dropped_state_noops sampleState sampleDropped samplePiece 1
      samplePiece).1 rfl,
    (dropped_state_noops samplePieceState sampleDropped samplePiece 1
      samplePiece).2 rfl⟩

/-! ## Theorems: post-placement column bound (claim C8) -/

/-- Helper: length preservation of the cut-off loop. -/
theorem foldl_set_take_length : ∀ (n : Nat) (g : Grid),
    ((List.range n).foldl
      (fun g cc => g.set cc ((g.getD cc []).take ROWS)) g).length =
      g.length := by
  intro n
  induction n with
  | zero => intro g; rfl
  | succ n ih =>
    intro g
    rw [List.range_succ, List.foldl_append, List.foldl_cons, List.foldl_nil,
      List.length_set, ih]

/-- Helper: reading a column of a prefix of the cut-off loop. -/
theorem foldl_set_take_getD : ∀ (n : Nat) (g : Grid) (c : Nat),
    ((List.range n).foldl
      (fun g cc => g.set cc ((g.getD cc []).take ROWS)) g).getD c [] =
      if c < n ∧ c < g.length then (g.getD c []).take ROWS
      else g.getD c [] := by
  intro n
  induction n with
  | zero =>
    intro g c
    rw [List.range_zero, List.foldl_nil, if_neg]
    rintro ⟨h, -⟩
    omega
  | succ n ih =>
    intro g c
    rw [List.range_succ, List.foldl_append, List.foldl_cons, List.foldl_nil,
      getD_set, foldl_set_take_length]
    have hn : ((List.range n).foldl
        (fun g cc => g.set cc ((g.getD cc []).take ROWS)) g).getD n [] =
        g.getD n [] := by
      rw [ih, if_neg]
      rintro ⟨h, -⟩
      omega
    rw [hn, ih]
    by_cases hc : c = n
    · subst hc
      by_cases hl : c < g.length
      · rw [if_pos ⟨rfl, hl⟩, if_pos ⟨Nat.lt_succ_self c, hl⟩]
      · rw [if_neg (by rintro ⟨-, h⟩; exact hl h),
          if_neg (by rintro ⟨h, -⟩; omega),
          if_neg (by rintro ⟨-, h⟩; exact hl h)]
    · rw [if_neg (by rintro ⟨h, -⟩; exact hc h)]
      by_cases h2 : c < n ∧ c < g.length
      · rw [if_pos h2, if_pos ⟨by omega, h2.2⟩]
      · rw [if_neg h2, if_neg (by rintro ⟨ha, hb⟩; exact h2 ⟨by omega, hb⟩)]

/-- Helper: reading a column of the cut-off loop's result. -/
theorem trimColumns_getD (g : Grid) (c : Nat) :
    (trimColumns g).getD c [] =
      if c < COLS ∧ c < g.length then (g.getD c []).take ROWS
      else g.getD c [] :=
  foldl_set_take_getD COLS g c

/-- C8: after a `finishDrop` commit of a dropped piece, every grid column
holds only its bottom `ROWS` cells of the pushed grid; in particular every
column length is at most `ROWS`, and overflow at the top is discarded
rather than ending the game. -/
theorem finishDrop_column_bound (s : State) (d : DroppedPiece)
    (newPiece : Piece) (hp : s.piece = .dropped d) (hq : s.queue ≠ [])
    (hlen : s.grid.length = COLS) :
    (∀ c, (s.finishDrop newPiece).grid.getD c [] =
      ((pushPieceColumns s.grid d).getD c []).take ROWS) ∧
    ∀ c, ((s.finishDrop newPiece).grid.getD c []).length ≤ ROWS := by
  obtain ⟨next, rest, hq'⟩ : ∃ next rest, s.queue = next :: rest := by
    cases hqq : s.queue with
    | nil => exact absurd hqq hq
    | cons a l => exact ⟨a, l, rfl⟩
  have hpush : (pushPieceColumns s.grid d).length = COLS := by
    simp [pushPieceColumns, hlen]
  have hgrid : (s.finishDrop newPiece).grid =
      trimColumns (pushPieceColumns s.grid d) := by
    simp [State.finishDrop, hp, hq']
  have key : ∀ c, (s.finishDrop newPiece).grid.getD c [] =
      ((pushPieceColumns s.grid d).getD c []).take ROWS := by
    intro c
    rw [hgrid, trimColumns_getD, hpush]
    by_cases h : c < COLS
    · simp [h]
    · simp only [h, false_and, if_false]
      rw [List.getD_eq_getElem?_getD,
        List.getElem?_eq_none_iff.mpr (by omega)]
      simp
  refine ⟨key, fun c => ?_⟩
  rw [key c]
  simp [List.length_take_le]

/-- Witness for C8 on the sample state. -/
theorem finishDrop_column_bound_witness :
    ((sampleState.finishDrop samplePiece).grid.getD 7 [] =
      ((pushPieceColumns sampleState.grid sampleDropped).getD 7 []).take
        ROWS) ∧
      ((sampleState.finishDrop samplePiece).grid.getD 7 []).length ≤ ROWS :=
  ⟨(finishDrop_column_bound sampleState sampleDropped samplePiece rfl
      (by decide) (by decide)).1 7,
    (finishDrop_column_bound sampleState sampleDropped samplePiece rfl
      (by decide) (by decide)).2 7⟩

/-! ## Theorems: wraparound sweep (claim C6) -/

/-- C6 counterexample: on a wrap tick (previous position 15.5, current
position 0.5) the sweep leaves the match grid entirely unchanged, even
though columns 15 and 0 hold matched cells; no progress is accrued. -/
theorem sweep_wrap_counterexample :
    sweepColumns wrapMatched (31 / 2) (1 / 2) = wrapMatched ∧
      getCell wrapMatched 15 0 = some 0 ∧ getCell wrapMatched 0 0 = some 0 := by
  refine ⟨?_, by decide, by decide⟩
  unfold sweepColumns intRange
  have hz : (Rat.floor (1 / 2 : ℚ) + 1 - Rat.floor (31 / 2 : ℚ)).toNat = 0 := by
    rw [ratFloor_eq, ratFloor_eq]
    have h1 : ⌊(1 / 2 : ℚ)⌋ = 0 := by norm_num
    have h2 : ⌊(31 / 2 : ℚ)⌋ = 15 := by norm_num
    rw [h1, h2]
    decide
  rw [hz]
  rfl

/-- C6 amended: on a tick where the timeline wraps (current floor below
previous floor), the sweep loop body never runs: no column receives any
progress and the match grid is returned unchanged. -/
theorem sweep_wrap_no_accrual (matched : MatchGrid) (previous current : ℚ)
    (h : Rat.floor current < Rat.floor previous) :
    sweepColumns matched previous current = matched := by
  unfold sweepColumns intRange
  have hz : (Rat.floor current + 1 - Rat.floor previous).toNat = 0 := by omega
  rw [hz]
  rfl

/-- Witness for C6's amended theorem at the wrap from 15.5 to 0.5. -/
theorem sweep_wrap_no_accrual_witness :
    sweepColumns wrapMatched (31 / 2) (1 / 2) = wrapMatched :=
  sweep_wrap_no_accrual wrapMatched (31 / 2) (1 / 2) (by
    rw [ratFloor_eq, ratFloor_eq]
    have h1 : ⌊(1 / 2 : ℚ)⌋ = 0 := by norm_num
    have h2 : ⌊(31 / 2 : ℚ)⌋ = 15 := by norm_num
    rw [h1, h2]
    decide)

/-- Helper: the removal loop skips every cluster the timeline has not yet
fully passed. -/
theorem removalLoop_ineligible (cur : ℚ) (groups : List (Nat × Nat)) :
    ∀ (acc : Grid × MatchGrid × Bool),
      (∀ grp ∈ groups, cur < (grp.2 : ℚ) + 1) →
      groups.foldl (clearGroupCols cur) acc = acc := by
  induction groups with
  | nil => intro acc _; rfl
  | cons g gs ih =>
    intro acc h
    rw [List.foldl_cons]
    have hskip : clearGroupCols cur acc g = acc := by
      unfold clearGroupCols
      rw [if_neg (not_le.mpr (h g (List.mem_cons_self _ _)))]
    rw [hskip]
    exact ih acc fun grp hm => h grp (List.mem_cons_of_mem _ hm)

/-- Helper: when no cluster is eligible, the removal phase leaves the
whole state unchanged. -/
theorem clearPhase_of_ineligible (s : State) (cur : ℚ)
    (h : ∀ grp ∈ findGroups s.matched, cur < (grp.2 : ℚ) + 1) :
    s.clearPhase cur = s := by
  simp only [State.clearPhase, removalLoop]
  rw [removalLoop_ineligible cur _ _ h]
  rfl

/-! ## Theorems: timeline sweep accrual (claim C5) -/

/-- Helper: mapping a null-preserving function over a match column
commutes with the defaulted cell read. -/
theorem getD_map_option (l : List (Option ℚ)) (f : Option ℚ → Option ℚ)
    (hf : f none = none) (r : Nat) :
    (l.map f).getD r none = f (l.getD r none) := by
  induction l generalizing r with
  | nil => simpa using hf.symm
  | cons a l ih =>
    cases r with
    | zero => simp
    | succ n => simpa using ih n

/-- Helper: pointwise effect of `addProgress` on one column. -/
theorem getCell_addProgress (m : MatchGrid) (col : Int) (p : ℚ) (c r : Nat) :
    getCell (addProgress m col p) c r =
      if (c : Int) = col then (getCell m c r).map (fun x => x + p)
      else getCell m c r := by
  have hmap : ∀ v : Option ℚ,
      (match v with | some x => some (x + p) | none => none) =
        Option.map (fun x => x + p) v := by
    intro v
    cases v <;> rfl
  by_cases hceq : (c : Int) = col
  · rw [if_pos hceq]
    have h0 : 0 ≤ col := by omega
    have hc : col.toNat = c := by omega
    unfold addProgress getCell
    rw [if_pos h0, hc, getD_set]
    by_cases hl : c < m.length
    · rw [if_pos ⟨rfl, hl⟩, getD_map_option _ _ rfl, hmap]
    · have hm0 : m.getD c [] = [] := List.getD_eq_default _ _ (by omega)
      have hnone : (m.getD c []).getD r none = none := by
        rw [hm0]
        rfl
      rw [if_neg (fun hh => hl hh.2), hnone]
      rfl
  · rw [if_neg hceq]
    unfold addProgress getCell
    by_cases h0 : 0 ≤ col
    · rw [if_pos h0, getD_set, if_neg (by rintro ⟨h1, -⟩; omega)]
    · rw [if_neg h0]

/-- Helper: pointwise effect of the sweep fold over a contiguous integer
column range. -/
theorem getCell_sweepAux (f : Int → ℚ) (lo : Int) :
    ∀ (n : Nat) (m : MatchGrid) (c r : Nat),
      getCell (((List.range n).map fun (i : Nat) => lo + (i : Int)).foldl
        (fun m col => addProgress m col (f col)) m) c r =
      if lo ≤ (c : Int) ∧ (c : Int) < lo + n then
        (getCell m c r).map (fun x => x + f c)
      else getCell m c r := by
  intro n
  induction n with
  | zero =>
    intro m c r
    rw [if_neg (by rintro ⟨h1, h2⟩; omega)]
    rfl
  | succ n ih =>
    intro m c r
    rw [List.range_succ, List.map_append, List.foldl_append]
    simp only [List.map_cons, List.map_nil, List.foldl_cons, List.foldl_nil]
    rw [getCell_addProgress, ih]
    by_cases hc : (c : Int) = lo + n
    · rw [if_pos hc, if_neg (by omega), if_pos (by push_cast; omega), hc]
    · rw [if_neg hc]
      by_cases h2 : lo ≤ (c : Int) ∧ (c : Int) < lo + n
      · rw [if_pos h2, if_pos (by push_cast; omega)]
      · rw [if_neg h2, if_neg (by push_cast; omega)]

/-- Helper: pointwise effect of one sweep over the match grid, for a
non-wrapping tick. -/
theorem getCell_sweepColumns (m : MatchGrid) (previous current : ℚ)
    (h : previous ≤ current) (c r : Nat) :
    getCell (sweepColumns m previous current) c r =
      if ⌊previous⌋ ≤ (c : Int) ∧ (c : Int) ≤ ⌊current⌋ then
        (getCell m c r).map (fun x => x + (current - max (c : ℚ) previous))
      else getCell m c r := by
  unfold sweepColumns intRange
  rw [ratFloor_eq, ratFloor_eq]
  have hfl : ⌊previous⌋ ≤ ⌊current⌋ := Int.floor_le_floor h
  rw [getCell_sweepAux (fun col => current - max (col : ℚ) previous)
    ⌊previous⌋ ((⌊current⌋ + 1 - ⌊previous⌋).toNat) m c r]
  have hcast : ((c : Int) : ℚ) = (c : ℚ) := by push_cast; rfl
  rw [hcast]
  by_cases hcond : ⌊previous⌋ ≤ (c : Int) ∧ (c : Int) ≤ ⌊current⌋
  · rw [if_pos (by omega), if_pos hcond]
  · rw [if_neg (by omega), if_neg hcond]

/-- C5: on a non-wrapping tick from `previous` to `current`, every column
from `floor(previous)` to `floor(current)` inclusive has
`current - max(column, previous)` added to each numeric cell (null cells
unchanged, other columns unchanged); in particular a sweep from 3.0 to
4.0 adds exactly 1.0 to every matched cell of column 3 and 0 to column 4,
and a matched cluster occupying columns [3,4] is not removed while the
timeline is below 5. -/
theorem sweep_spec (m : MatchGrid) (previous current : ℚ)
    (h : previous ≤ current) (c r : Nat) :
    (getCell (sweepColumns m previous current) c r =
      if ⌊previous⌋ ≤ (c : Int) ∧ (c : Int) ≤ ⌊current⌋ then
        (getCell m c r).map (fun x => x + (current - max (c : ℚ) previous))
      else getCell m c r) ∧
    (∀ (m' : MatchGrid) (r' : Nat) (x : ℚ), getCell m' 3 r' = some x →
      getCell (sweepColumns m' 3 4) 3 r' = some (x + 1)) ∧
    (∀ (m' : MatchGrid) (r' : Nat) (x : ℚ), getCell m' 4 r' = some x →
      getCell (sweepColumns m' 3 4) 4 r' = some (x + 0)) ∧
    (∀ (m' : MatchGrid) (c' r' : Nat), getCell m' c' r' = none →
      getCell (sweepColumns m' previous current) c' r' = none) ∧
    (∀ (s : State) (cur : ℚ), findGroups s.matched = [(3, 4)] →
      cur < 5 → s.clearPhase cur = s) := by
  refine ⟨getCell_sweepColumns m previous current h c r, ?_, ?_, ?_, ?_⟩
  · intro m' r' x hx
    rw [getCell_sweepColumns m' 3 4 (by norm_num) 3 r', hx]
    have h3 : ⌊(3 : ℚ)⌋ = 3 := by norm_num
    have h4 : ⌊(4 : ℚ)⌋ = 4 := by norm_num
    rw [if_pos (by rw [h3, h4]; omega)]
    have he : (4 : ℚ) - max ((3 : Nat) : ℚ) 3 = 1 := by norm_num
    rw [he]
    rfl
  · intro m' r' x hx
    rw [getCell_sweepColumns m' 3 4 (by norm_num) 4 r', hx]
    have h3 : ⌊(3 : ℚ)⌋ = 3 := by norm_num
    have h4 : ⌊(4 : ℚ)⌋ = 4 := by norm_num
    rw [if_pos (by rw [h3, h4]; omega)]
    have he : (4 : ℚ) - max ((4 : Nat) : ℚ) 3 = 0 := by norm_num
    rw [he]
    rfl
  · intro m' c' r' hx
    rw [getCell_sweepColumns m' previous current h c' r', hx]
    by_cases hcond : ⌊previous⌋ ≤ (c' : Int) ∧ (c' : Int) ≤ ⌊current⌋
    · rw [if_pos hcond]
      rfl
    · rw [if_neg hcond]
  · intro s cur hgroups hcur
    refine clearPhase_of_ineligible s cur ?_
    rw [hgroups]
    intro grp hm
    rcases List.mem_singleton.mp hm with rfl
    have : ((4 : Nat) : ℚ) + 1 = 5 := by norm_num
    rw [this]
    exact hcur

/-- Witness for C5 on the sample cluster: sweeping from 3.0 to 4.0 raises
the progress of the matched cell at column 3, row 0 from 1 to 2. -/
theorem sweep_spec_witness :
    getCell (sweepColumns sampleMatched 3 4) 3 0 = some (1 + 1) :=
  (sweep_spec [] 0 0 le_rfl 0 0).2.1 sampleMatched 0 1 (by decide)

/-! ## Theorems: match detection (claim C7) -/

/-- Helper: the null-guarded progress-0 write is idempotent. -/
theorem initCell_idem (v : Option ℚ) : initCell (initCell v) = initCell v := by
  cases v <;> rfl

/-- Helper: `markMatched` preserves the number of columns. -/
theorem length_markMatched (m : MatchGrid) (c r : Nat) :
    (markMatched m c r).length = m.length := by
  unfold markMatched
  exact List.length_set ..

/-- Helper: `markMatched` preserves every column length. -/
theorem colLength_markMatched (m : MatchGrid) (c r c' : Nat) :
    ((markMatched m c r).getD c' []).length = (m.getD c' []).length := by
  unfold markMatched
  rw [getD_set]
  by_cases h : c' = c ∧ c < m.length
  · rw [if_pos h, List.length_set]
    rw [h.1]
  · rw [if_neg h]

/-- Helper: pointwise effect of one null-guarded progress-0 write. -/
theorem getCell_markMatched (m : MatchGrid) (c r c' r' : Nat) :
    getCell (markMatched m c r) c' r' =
      if c' = c ∧ r' = r ∧ c < m.length ∧ r < (m.getD c []).length then
        initCell (getCell m c r)
      else getCell m c' r' := by
  unfold markMatched getCell
  rw [getD_set]
  by_cases hc : c' = c ∧ c < m.length
  · rw [if_pos hc, getD_set]
    obtain ⟨hc1, hc2⟩ := hc
    subst hc1
    by_cases hr : r' = r ∧ r < (m.getD c' []).length
    · rw [if_pos hr]
      obtain ⟨hr1, hr2⟩ := hr
      subst hr1
      rw [if_pos ⟨rfl, rfl, hc2, hr2⟩]
    · rw [if_neg hr, if_neg fun hh => hr ⟨hh.2.1, hh.2.2.2⟩]
  · rw [if_neg hc, if_neg fun hh => hc ⟨hh.1, hh.2.2.1⟩]

/-- Helper: pointwise effect of folding the progress-0 writes over a list
of in-bounds positions. -/
theorem getCell_foldl_mark (ps : List (Nat × Nat)) :
    ∀ (m : MatchGrid),
      (∀ p ∈ ps, p.1 < m.length ∧ p.2 < (m.getD p.1 []).length) →
      ∀ c r,
        getCell (ps.foldl (fun m p => markMatched m p.1 p.2) m) c r =
          if (c, r) ∈ ps then initCell (getCell m c r) else getCell m c r := by
  induction ps with
  | nil =>
    intro m _ c r
    simp
  | cons p rest ih =>
    intro m hb c r
    rw [List.foldl_cons]
    have hrest : ∀ q ∈ rest, q.1 < (markMatched m p.1 p.2).length ∧
        q.2 < ((markMatched m p.1 p.2).getD q.1 []).length := by
      intro q hq
      rw [length_markMatched, colLength_markMatched]
      exact hb q (List.mem_cons_of_mem _ hq)
    rw [ih (markMatched m p.1 p.2) hrest c r]
    have hp := hb p (List.mem_cons_self _ _)
    by_cases hmem : (c, r) ∈ rest
    · rw [if_pos hmem, if_pos (List.mem_cons_of_mem _ hmem),
        getCell_markMatched]
      by_cases hcr : c = p.1 ∧ r = p.2 ∧ p.1 < m.length ∧
          p.2 < (m.getD p.1 []).length
      · rw [if_pos hcr, initCell_idem]
        obtain ⟨h1, h2, -, -⟩ := hcr
        rw [h1, h2]
      · rw [if_neg hcr]
    · rw [if_neg hmem, getCell_markMatched]
      by_cases hcr : (c, r) = p
      · have h1 : c = p.1 := by rw [← hcr]
        have h2 : r = p.2 := by rw [← hcr]
        rw [if_pos ⟨h1, h2, hp.1, hp.2⟩,
          if_pos (List.mem_cons.mpr (Or.inl hcr)), h1, h2]
      · rw [if_neg (by
            rintro ⟨h1, h2, -, -⟩
            exact hcr (by rw [Prod.mk.injEq]; exact ⟨h1, h2⟩)),
          if_neg (by
            rw [List.mem_cons]
            rintro (h | h)
            · exact hcr h
            · exact hmem h)]

/-- Helper: the number of columns of the padded match grid. -/
theorem length_growMatched (grid : Grid) (m : MatchGrid) :
    (growMatched grid m).length = m.length := by
  unfold growMatched
  rw [List.length_map, List.length_range]

/-- Helper: one column of the padded match grid. -/
theorem getD_growMatched (grid : Grid) (m : MatchGrid) (c : Nat) :
    (growMatched grid m).getD c [] =
      if c < m.length then
        m.getD c [] ++
          List.replicate ((grid.getD c []).length - (m.getD c []).length) none
      else [] := by
  unfold growMatched
  rw [getD_map_range]

/-- Helper: the padded match grid covers at least the grid's columns. -/
theorem colLength_growMatched (grid : Grid) (m : MatchGrid) (c : Nat)
    (hc : c < m.length) :
    ((growMatched grid m).getD c []).length =
      max (m.getD c []).length (grid.getD c []).length := by
  rw [getD_growMatched, if_pos hc, List.length_append, List.length_replicate]
  omega

/-- Helper: padding with `null` cells does not change any cell read. -/
theorem getCell_growMatched (grid : Grid) (m : MatchGrid) (c r : Nat) :
    getCell (growMatched grid m) c r = getCell m c r := by
  unfold getCell
  rw [getD_growMatched]
  by_cases hc : c < m.length
  · rw [if_pos hc]
    by_cases hr : r < (m.getD c []).length
    · rw [List.getD_append _ _ _ _ hr]
    · have hrhs : (m.getD c []).getD r none = none :=
        List.getD_eq_default _ _ (by omega)
      rw [hrhs, List.getD_eq_getElem?_getD,
        List.getElem?_append_right (by omega), List.getElem?_replicate]
      by_cases hlt : r - (m.getD c []).length <
          (grid.getD c []).length - (m.getD c []).length
      · rw [if_pos hlt]
        rfl
      · rw [if_neg hlt]
        rfl
  · rw [if_neg hc, List.getD_eq_default m _ (by omega)]

/-- Helper: folds over the same list with pointwise-equal step functions
agree. -/
theorem foldl_ext_mem (f g : β → α → β) (l : List α)
    (h : ∀ a ∈ l, ∀ b, f b a = g b a) : ∀ b, l.foldl f b = l.foldl g b := by
  induction l with
  | nil => intro b; rfl
  | cons a l ih =>
    intro b
    rw [List.foldl_cons, List.foldl_cons, h a (List.mem_cons_self _ _)]
    exact ih (fun x hx b' => h x (List.mem_cons_of_mem _ hx) b') _

/-- Helper: the detection loops are exactly the fold of the progress-0
writes over the list of block positions. -/
theorem detectMatches_eq_foldl (grid : Grid) (m : MatchGrid) :
    detectMatches grid m =
      (matchPositions grid).foldl (fun m p => markMatched m p.1 p.2) m := by
  simp only [detectMatches, matchPositions]
  rw [foldl_flatMap]
  simp only [foldl_flatMap]
  refine (foldl_ext_mem _ _ _ (fun c hc m' => ?_) m)
  rw [List.mem_range] at hc
  refine (foldl_ext_mem _ _ _ (fun r hr m'' => ?_) m')
  rw [List.mem_range] at hr
  by_cases hcolor : (grid.getD c []).getD r 0 = (grid.getD c []).getD (r + 1) 0 ∧
      (grid.getD c []).getD r 0 = (grid.getD (c + 1) []).getD r 0 ∧
      (grid.getD c []).getD r 0 = (grid.getD (c + 1) []).getD (r + 1) 0
  · rw [if_pos hcolor]
    have hb : sameColorBlock grid c r = true := by
      unfold sameColorBlock
      simp only [Bool.and_eq_true, decide_eq_true_eq]
      exact ⟨⟨by omega, by omega⟩, hcolor⟩
    rw [hb]
    rfl
  · rw [if_neg hcolor]
    have hb : sameColorBlock grid c r = false := by
      cases hbb : sameColorBlock grid c r with
      | false => rfl
      | true =>
        exfalso
        unfold sameColorBlock at hbb
        simp only [Bool.and_eq_true, decide_eq_true_eq] at hbb
        exact hcolor hbb.2
    rw [hb]
    rfl

/-- Helper: membership in the block position list is exactly membership
in some same-color 2x2 block. -/
theorem mem_matchPositions (grid : Grid) (c r : Nat) :
    (c, r) ∈ matchPositions grid ↔ inSomeBlock grid c r = true := by
  constructor
  · intro hmem
    obtain ⟨c0, hc0, hrest⟩ := List.mem_flatMap.mp hmem
    obtain ⟨r0, hr0, hcell⟩ := List.mem_flatMap.mp hrest
    rw [List.mem_range] at hc0 hr0
    by_cases hb : sameColorBlock grid c0 r0 = true
    swap
    · rw [if_neg hb] at hcell
      simp at hcell
    rw [if_pos hb] at hcell
    unfold inSomeBlock
    simp only [List.mem_cons, List.mem_singleton, List.not_mem_nil,
      or_false] at hcell
    rcases hcell with h | h | h | h <;>
        (rw [Prod.mk.injEq] at h; obtain ⟨rfl, rfl⟩ := h) <;>
      simp [hb]
  · intro hin
    unfold inSomeBlock at hin
    simp only [Bool.or_eq_true, Bool.and_eq_true, decide_eq_true_eq] at hin
    have hboundsOf : ∀ c0 r0, sameColorBlock grid c0 r0 = true →
        c0 < COLS - 1 ∧
          r0 < min (grid.getD c0 []).length (grid.getD (c0 + 1) []).length - 1 := by
      intro c0 r0 hb
      unfold sameColorBlock at hb
      simp only [Bool.and_eq_true, decide_eq_true_eq] at hb
      exact ⟨by omega, by omega⟩
    unfold matchPositions
    rw [List.mem_flatMap]
    rcases hin with ((hb | ⟨hr1, hb⟩) | ⟨hc1, hb⟩) | ⟨⟨hc1, hr1⟩, hb⟩
    · obtain ⟨hb1, hb2⟩ := hboundsOf c r hb
      exact ⟨c, List.mem_range.mpr hb1, List.mem_flatMap.mpr
        ⟨r, List.mem_range.mpr hb2, by rw [if_pos hb]; simp⟩⟩
    · obtain ⟨hb1, hb2⟩ := hboundsOf c (r - 1) hb
      refine ⟨c, List.mem_range.mpr hb1, List.mem_flatMap.mpr
        ⟨r - 1, List.mem_range.mpr hb2, ?_⟩⟩
      rw [if_pos hb]
      have he : r - 1 + 1 = r := by omega
      rw [he]
      simp
    · obtain ⟨hb1, hb2⟩ := hboundsOf (c - 1) r hb
      refine ⟨c - 1, List.mem_range.mpr hb1, List.mem_flatMap.mpr
        ⟨r, List.mem_range.mpr hb2, ?_⟩⟩
      rw [if_pos hb]
      have he : c - 1 + 1 = c := by omega
      rw [he]
      simp
    · obtain ⟨hb1, hb2⟩ := hboundsOf (c - 1) (r - 1) hb
      refine ⟨c - 1, List.mem_range.mpr hb1, List.mem_flatMap.mpr
        ⟨r - 1, List.mem_range.mpr hb2, ?_⟩⟩
      rw [if_pos hb]
      have he1 : c - 1 + 1 = c := by omega
      have he2 : r - 1 + 1 = r := by omega
      rw [he1, he2]
      simp

/-- Helper: every block position is within the padded match grid. -/
theorem matchPositions_bounds (grid : Grid) (m2 : MatchGrid)
    (hlen : COLS ≤ m2.length)
    (hcol : ∀ c, c < COLS →
      (grid.getD c []).length ≤ (m2.getD c []).length) :
    ∀ p ∈ matchPositions grid,
      p.1 < m2.length ∧ p.2 < (m2.getD p.1 []).length := by
  intro p hp
  unfold matchPositions at hp
  obtain ⟨c0, hc0, hrest⟩ := List.mem_flatMap.mp hp
  obtain ⟨r0, hr0, hcell⟩ := List.mem_flatMap.mp hrest
  rw [List.mem_range] at hc0 hr0
  by_cases hb : sameColorBlock grid c0 r0 = true
  swap
  · rw [if_neg hb] at hcell
    simp at hcell
  rw [if_pos hb] at hcell
  simp only [List.mem_cons, List.mem_singleton, List.not_mem_nil,
    or_false] at hcell
  have hle1 : (grid.getD c0 []).length ≤ (m2.getD c0 []).length :=
    hcol c0 (by omega)
  have hle2 : (grid.getD (c0 + 1) []).length ≤ (m2.getD (c0 + 1) []).length :=
    hcol (c0 + 1) (by omega)
  rcases hcell with rfl | rfl | rfl | rfl <;>
    exact ⟨by dsimp only; omega, by dsimp only; omega⟩

/-- Helper: pointwise characterization of match detection over the padded
match grid. -/
theorem getCell_detectMatches (grid : Grid) (m : MatchGrid)
    (hm : m.length = COLS) (c r : Nat) :
    getCell (detectMatches grid (growMatched grid m)) c r =
      if inSomeBlock grid c r then initCell (getCell m c r)
      else getCell m c r := by
  rw [detectMatches_eq_foldl]
  have hbounds : ∀ p ∈ matchPositions grid,
      p.1 < (growMatched grid m).length ∧
        p.2 < ((growMatched grid m).getD p.1 []).length := by
    refine matchPositions_bounds grid _ (by rw [length_growMatched, hm]) ?_
    intro c' hc'
    rw [colLength_growMatched grid m c' (by omega)]
    omega
  rw [getCell_foldl_mark (matchPositions grid) (growMatched grid m) hbounds
    c r, if_congr (mem_matchPositions grid c r) rfl rfl,
    getCell_growMatched]

/-- C7: match detection over the whole grid flags exactly the cells that
belong to some same-color 2x2 block: a previously null cell of such a
block gets progress 0, a cell already carrying numeric progress keeps its
value, and every other cell is untouched. In particular a grid whose
first two columns are `[5,5]` and `[5,5]` flags all four cells at
progress 0, and one with a mismatched cell flags none. -/
theorem updateMatches_spec (grid : Grid) (m : MatchGrid)
    (hm : m.length = COLS) :
    (∀ c r, getCell (detectMatches grid (growMatched grid m)) c r =
      if inSomeBlock grid c r then initCell (getCell m c r)
      else getCell m c r) ∧
    detectMatches ([[5, 5], [5, 5]] ++ List.replicate 14 [])
        (growMatched ([[5, 5], [5, 5]] ++ List.replicate 14 [])
          (List.replicate COLS [])) =
      [[some 0, some 0], [some 0, some 0]] ++ List.replicate 14 [] ∧
    detectMatches ([[5, 5], [5, 6]] ++ List.replicate 14 [])
        (growMatched ([[5, 5], [5, 6]] ++ List.replicate 14 [])
          (List.replicate COLS [])) =
      [[none, none], [none, none]] ++ List.replicate 14 [] :=
  ⟨fun c r => getCell_detectMatches grid m hm c r, by decide, by decide⟩

/-- Witness for C7 on the sample grid: the cell at column 3, row 0 of the
sample cluster is flagged by detection from an all-null match grid. -/
theorem updateMatches_spec_witness :
    getCell (detectMatches sampleGrid
        (growMatched sampleGrid (List.replicate COLS []))) 3 0 =
      if inSomeBlock sampleGrid 3 0 then
        initCell (getCell (List.replicate COLS []) 3 0)
      else getCell (List.replicate COLS []) 3 0 :=
  (updateMatches_spec sampleGrid (List.replicate COLS []) (by decide)).1 3 0

/-! ## Theorems: cluster-gated removal (claim C1) -/

/-- Helper: splitting a removal schedule. -/
theorem removeRows_append (col : List α) (r1 r2 : List Nat) :
    removeRows col (r1 ++ r2) = removeRows (removeRows col r1) r2 :=
  List.foldl_append ..

/-- Helper: removal at shifted row indices skips the bottom cell. -/
theorem removeRows_map_succ (a : α) (l : List α) (rows : List Nat) :
    removeRows (a :: l) (rows.map (· + 1)) = a :: removeRows l rows := by
  unfold removeRows
  induction rows generalizing l with
  | nil => rfl
  | cons r rs ih =>
    rw [List.map_cons, List.foldl_cons, List.foldl_cons,
      List.eraseIdx_cons_succ]
    exact ih _

/-- Helper: recurrence of the removal schedule on a cons cell. -/
theorem rowsToRemove_cons (v : Option ℚ) (rest : List (Option ℚ)) :
    rowsToRemove (v :: rest) =
      ((rowsToRemove rest).map (· + 1)) ++
        (if isRemovable v then [0] else []) := by
  unfold rowsToRemove
  rw [List.length_cons, List.range_succ_eq_map, List.filter_cons]
  have hp0 : isRemovable ((v :: rest).getD 0 none) = isRemovable v := by
    rw [List.getD_cons_zero]
  have hmap : (List.filter
      (fun r => isRemovable ((v :: rest).getD r none))
      ((List.range rest.length).map Nat.succ)) =
      ((List.range rest.length).filter
        (fun r => isRemovable (rest.getD r none))).map Nat.succ := by
    rw [List.filter_map]
    exact congrArg _ (List.filter_congr fun x _ => rfl)
  rw [hp0]
  by_cases hv : isRemovable v = true
  · rw [if_pos hv, if_pos hv, List.reverse_cons, hmap, ← List.map_reverse]
  · rw [if_neg hv, if_neg (by simpa using hv), List.append_nil, hmap,
      ← List.map_reverse]

/-- Helper: executing the removal schedule keeps exactly the cells whose
match cell is not removable (lengths of the two columns agreeing). -/
theorem removeRows_rowsToRemove (mcol : List (Option ℚ)) :
    ∀ (gcol : List α), gcol.length = mcol.length →
      removeRows gcol (rowsToRemove mcol) =
        ((gcol.zip mcol).filter fun av => !isRemovable av.2).map Prod.fst := by
  induction mcol with
  | nil =>
    intro gcol hlen
    rw [List.eq_nil_of_length_eq_zero hlen]
    rfl
  | cons v rest ih =>
    intro gcol hlen
    cases gcol with
    | nil => simp at hlen
    | cons a grest =>
      rw [rowsToRemove_cons, removeRows_append, removeRows_map_succ,
        ih grest (by simpa using hlen), List.zip_cons_cons, List.filter_cons]
      by_cases hv : isRemovable v = true
      · rw [if_pos hv]
        have hc : (!isRemovable (a, v).2) = false := by
          simp [hv]
        rw [hc]
        simp only [Bool.false_eq_true, if_false]
        show List.eraseIdx _ 0 = _
        rw [List.eraseIdx_cons_zero]
      · rw [if_neg hv]
        have hc : (!isRemovable (a, v).2) = true := by
          have hf : isRemovable v = false := by
            revert hv
            cases isRemovable v <;> simp
          simp [hf]
        rw [hc]
        simp only [if_true, List.map_cons]
        rfl

/-- Helper: the removal schedule lists row indices strictly decreasing,
highest first. -/
theorem rowsToRemove_sorted (mcol : List (Option ℚ)) :
    (rowsToRemove mcol).Pairwise (· > ·) := by
  unfold rowsToRemove
  rw [List.pairwise_reverse]
  exact List.Pairwise.sublist (List.filter_sublist _)
    (List.pairwise_lt_range _)

/-- Helper: one step of the cluster scan preserves well-formedness. -/
theorem pushCol_wf (groups : List (Nat × Nat)) (c : Nat)
    (h : GroupsWF groups c) : GroupsWF (pushCol groups c) (c + 1) := by
  obtain ⟨hmem, hpw⟩ := h
  unfold pushCol
  cases hlast : groups.getLast? with
  | none =>
    have hnil : groups = [] := List.getLast?_eq_none_iff.mp hlast
    subst hnil
    refine ⟨?_, ?_⟩
    · intro g hg
      rcases List.mem_singleton.mp hg with rfl
      exact ⟨le_rfl, Nat.lt_succ_self c⟩
    · exact List.pairwise_singleton ..
  | some se =>
    obtain ⟨s, e⟩ := se
    have hne : groups ≠ [] := by
      intro hh
      rw [hh] at hlast
      simp at hlast
    have hgl : groups.getLast hne = (s, e) := by
      have := List.getLast?_eq_getLast groups hne
      rw [hlast] at this
      exact (Option.some_injective _ this).symm
    have hdecomp : groups.dropLast ++ [(s, e)] = groups := by
      rw [← hgl]
      exact List.dropLast_append_getLast hne
    have hse : (s, e) ∈ groups := by
      rw [← hdecomp]
      exact List.mem_append_right _ (List.mem_singleton.mpr rfl)
    show GroupsWF
      (if c = e + 1 then groups.dropLast ++ [(s, e + 1)]
        else groups ++ [(c, c)]) (c + 1)
    by_cases hc : c = e + 1
    · rw [if_pos hc]
      refine ⟨?_, ?_⟩
      · intro g hg
        rcases List.mem_append.mp hg with hg' | hg'
        · have hgm : g ∈ groups := by
            rw [← hdecomp]
            exact List.mem_append_left _ hg'
          obtain ⟨h1, h2⟩ := hmem g hgm
          exact ⟨h1, by omega⟩
        · rcases List.mem_singleton.mp hg' with rfl
          obtain ⟨h1, h2⟩ := hmem (s, e) hse
          dsimp only at h1 h2 ⊢
          exact ⟨by omega, by omega⟩
      · rw [← hdecomp] at hpw
        rw [List.pairwise_append] at hpw ⊢
        obtain ⟨hp1, hp2, hp3⟩ := hpw
        refine ⟨hp1, List.pairwise_singleton .., ?_⟩
        intro a ha b hb
        rcases List.mem_singleton.mp hb with rfl
        exact hp3 a ha (s, e) (List.mem_singleton.mpr rfl)
    · rw [if_neg hc]
      refine ⟨?_, ?_⟩
      · intro g hg
        rcases List.mem_append.mp hg with hg' | hg'
        · obtain ⟨h1, h2⟩ := hmem g hg'
          exact ⟨h1, by omega⟩
        · rcases List.mem_singleton.mp hg' with rfl
          exact ⟨le_rfl, Nat.lt_succ_self c⟩
      · rw [List.pairwise_append]
        refine ⟨hpw, List.pairwise_singleton .., ?_⟩
        intro a ha b hb
        rcases List.mem_singleton.mp hb with rfl
        rw [← hdecomp] at ha hpw
        rw [List.pairwise_append] at hpw
        obtain ⟨h1, h2⟩ := hmem (s, e) hse
        dsimp only at h1 h2
        rcases List.mem_append.mp ha with ha' | ha'
        · have h3 := hpw.2.2 a ha' (s, e) (List.mem_singleton.mpr rfl)
          dsimp only at h3 ⊢
          omega
        · rcases List.mem_singleton.mp ha' with rfl
          dsimp only
          omega

/-- Helper: the cluster scan produces a well-formed group list. -/
theorem findGroups_wf (matched : MatchGrid) :
    GroupsWF (findGroups matched) COLS := by
  unfold findGroups
  suffices h : ∀ n, GroupsWF ((List.range n).foldl
      (fun groups c =>
        if (matched.getD c []).any (·.isSome) then pushCol groups c
        else groups) []) n from h COLS
  intro n
  induction n with
  | zero => exact ⟨fun g hg => absurd hg (List.not_mem_nil g), List.Pairwise.nil⟩
  | succ n ih =>
    rw [List.range_succ, List.foldl_append, List.foldl_cons, List.foldl_nil]
    by_cases h : (matched.getD n []).any (·.isSome) = true
    · rw [if_pos h]
      exact pushCol_wf _ n ih
    · rw [if_neg h]
      obtain ⟨h1, h2⟩ := ih
      exact ⟨fun g hg => ⟨(h1 g hg).1, by have := (h1 g hg).2; omega⟩, h2⟩

/-- Helper: the two clearing branches of `clearColumn`, spelled out. -/
theorem clearColumn_pos (acc : Grid × MatchGrid × Bool) (col : Nat)
    (hb : (acc.2.1.getD col []).any isRemovable = true) :
    clearColumn acc col =
      (acc.1.set col (removeRows (acc.1.getD col [])
          (rowsToRemove (acc.2.1.getD col []))),
        acc.2.1.set col (removeRows (acc.2.1.getD col [])
          (rowsToRemove (acc.2.1.getD col []))),
        true) := by
  unfold clearColumn
  rw [if_pos hb]

/-- Helper: a column with no removable cell is skipped. -/
theorem clearColumn_neg (acc : Grid × MatchGrid × Bool) (col : Nat)
    (hb : ¬((acc.2.1.getD col []).any isRemovable = true)) :
    clearColumn acc col = acc := by
  unfold clearColumn
  rw [if_neg hb]

/-- Helper: full characterization of the per-column clearing fold over a
contiguous column range. -/
theorem clearColsFold_spec :
    ∀ (n s : Nat) (g : Grid) (m : MatchGrid) (b : Bool),
      g.length = COLS → m.length = COLS → s + n ≤ COLS →
      ((List.range' s n).foldl clearColumn (g, m, b)).1.length = COLS ∧
      ((List.range' s n).foldl clearColumn (g, m, b)).2.1.length = COLS ∧
      (∀ col, ¬(s ≤ col ∧ col < s + n) →
        ((List.range' s n).foldl clearColumn (g, m, b)).1.getD col [] =
          g.getD col [] ∧
        ((List.range' s n).foldl clearColumn (g, m, b)).2.1.getD col [] =
          m.getD col []) ∧
      (∀ col, s ≤ col → col < s + n →
        ((List.range' s n).foldl clearColumn (g, m, b)).1.getD col [] =
          (if (m.getD col []).any isRemovable then
            removeRows (g.getD col []) (rowsToRemove (m.getD col []))
          else g.getD col []) ∧
        ((List.range' s n).foldl clearColumn (g, m, b)).2.1.getD col [] =
          (if (m.getD col []).any isRemovable then
            removeRows (m.getD col []) (rowsToRemove (m.getD col []))
          else m.getD col [])) ∧
      (((List.range' s n).foldl clearColumn (g, m, b)).2.2 = true ↔
        b = true ∨ ∃ col, s ≤ col ∧ col < s + n ∧
          (m.getD col []).any isRemovable = true) ∧
      (((List.range' s n).foldl clearColumn (g, m, b)).2.2 = false →
        (List.range' s n).foldl clearColumn (g, m, b) = (g, m, b)) := by
  intro n
  induction n with
  | zero =>
    intro s g m b hg hm hle
    refine ⟨hg, hm, fun col _ => ⟨rfl, rfl⟩, fun col h1 h2 => absurd h2 (by omega),
      ?_, fun _ => rfl⟩
    simp only [List.range'_zero, List.foldl_nil]
    constructor
    · intro hb
      exact Or.inl hb
    · rintro (hb | ⟨col, h1, h2, -⟩)
      · exact hb
      · omega
  | succ n ih =>
    intro s g m b hg hm hle
    rw [List.range'_succ, List.foldl_cons]
    by_cases hb : (m.getD s []).any isRemovable = true
    · have hstep : clearColumn (g, m, b) s =
          (g.set s (removeRows (g.getD s []) (rowsToRemove (m.getD s []))),
            m.set s (removeRows (m.getD s []) (rowsToRemove (m.getD s []))),
            true) := clearColumn_pos (g, m, b) s hb
      rw [hstep]
      obtain ⟨ih1, ih2, ihout, ihin, ihflag, ihid⟩ := ih (s + 1)
        (g.set s (removeRows (g.getD s []) (rowsToRemove (m.getD s []))))
        (m.set s (removeRows (m.getD s []) (rowsToRemove (m.getD s []))))
        true (by rw [List.length_set]; exact hg)
        (by rw [List.length_set]; exact hm) (by omega)
      have hmset : ∀ col, col ≠ s →
          (m.set s (removeRows (m.getD s [])
            (rowsToRemove (m.getD s [])))).getD col [] = m.getD col [] := by
        intro col hcol
        rw [getD_set, if_neg (fun hh => hcol hh.1)]
      have hgset : ∀ col, col ≠ s →
          (g.set s (removeRows (g.getD s [])
            (rowsToRemove (m.getD s [])))).getD col [] = g.getD col [] := by
        intro col hcol
        rw [getD_set, if_neg (fun hh => hcol hh.1)]
      refine ⟨ih1, ih2, ?_, ?_, ?_, ?_⟩
      · intro col hcol
        obtain ⟨ho1, ho2⟩ := ihout col (by omega)
        rw [ho1, ho2, hgset col (by omega), hmset col (by omega)]
        exact ⟨rfl, rfl⟩
      · intro col h1 h2
        by_cases hcs : col = s
        · subst hcs
          obtain ⟨ho1, ho2⟩ := ihout col (by omega)
          rw [ho1, ho2, if_pos hb, if_pos hb, getD_set, getD_set,
            if_pos ⟨rfl, by omega⟩, if_pos ⟨rfl, by omega⟩]
          exact ⟨rfl, rfl⟩
        · obtain ⟨hi1, hi2⟩ := ihin col (by omega) (by omega)
          rw [hi1, hi2, hmset col hcs, hgset col hcs]
          exact ⟨rfl, rfl⟩
      · rw [ihflag]
        constructor
        · intro _
          exact Or.inr ⟨s, le_rfl, by omega, hb⟩
        · intro _
          exact Or.inl rfl
      · intro hfalse
        have : True := trivial
        exfalso
        have h1 := ihflag.mpr (Or.inl rfl)
        rw [hfalse] at h1
        exact Bool.false_ne_true h1
    · rw [clearColumn_neg (g, m, b) s hb]
      obtain ⟨ih1, ih2, ihout, ihin, ihflag, ihid⟩ :=
        ih (s + 1) g m b hg hm (by omega)
      refine ⟨ih1, ih2, ?_, ?_, ?_, ihid⟩
      · intro col hcol
        exact ihout col (by omega)
      · intro col h1 h2
        by_cases hcs : col = s
        · subst hcs
          obtain ⟨ho1, ho2⟩ := ihout col (by omega)
          rw [ho1, ho2, if_neg hb, if_neg hb]
          exact ⟨rfl, rfl⟩
        · exact ihin col (by omega) (by omega)
      · rw [ihflag]
        constructor
        · rintro (h | ⟨col, h1, h2, h3⟩)
          · exact Or.inl h
          · exact Or.inr ⟨col, by omega, by omega, h3⟩
        · rintro (h | ⟨col, h1, h2, h3⟩)
          · exact Or.inl h
          · refine Or.inr ⟨col, ?_, by omega, h3⟩
            rcases Nat.eq_or_lt_of_le h1 with rfl | hlt
            · exact absurd h3 hb
            · omega

/-- Helper: full characterization of clearing one cluster. -/
theorem clearGroupCols_spec (cur : ℚ) (grp : Nat × Nat) (g : Grid)
    (m : MatchGrid) (b : Bool) (hwf1 : grp.1 ≤ grp.2) (hwf2 : grp.2 < COLS)
    (hg : g.length = COLS) (hm : m.length = COLS) :
    (clearGroupCols cur (g, m, b) grp).1.length = COLS ∧
    (clearGroupCols cur (g, m, b) grp).2.1.length = COLS ∧
    (∀ col, ¬((grp.2 : ℚ) + 1 ≤ cur ∧ grp.1 ≤ col ∧ col ≤ grp.2) →
      (clearGroupCols cur (g, m, b) grp).1.getD col [] = g.getD col [] ∧
      (clearGroupCols cur (g, m, b) grp).2.1.getD col [] = m.getD col []) ∧
    (∀ col, (grp.2 : ℚ) + 1 ≤ cur → grp.1 ≤ col → col ≤ grp.2 →
      (clearGroupCols cur (g, m, b) grp).1.getD col [] =
        (if (m.getD col []).any isRemovable then
          removeRows (g.getD col []) (rowsToRemove (m.getD col []))
        else g.getD col []) ∧
      (clearGroupCols cur (g, m, b) grp).2.1.getD col [] =
        (if (m.getD col []).any isRemovable then
          removeRows (m.getD col []) (rowsToRemove (m.getD col []))
        else m.getD col [])) ∧
    ((clearGroupCols cur (g, m, b) grp).2.2 = true ↔ b = true ∨
      ((grp.2 : ℚ) + 1 ≤ cur ∧ ∃ col, grp.1 ≤ col ∧ col ≤ grp.2 ∧
        (m.getD col []).any isRemovable = true)) ∧
    ((clearGroupCols cur (g, m, b) grp).2.2 = false →
      clearGroupCols cur (g, m, b) grp = (g, m, b)) := by
  unfold clearGroupCols
  by_cases helig : (grp.2 : ℚ) + 1 ≤ cur
  · rw [if_pos helig]
    obtain ⟨h1, h2, hout, hin, hflag, hid⟩ := clearColsFold_spec
      (grp.2 + 1 - grp.1) grp.1 g m b hg hm (by omega)
    refine ⟨h1, h2, ?_, ?_, ?_, hid⟩
    · intro col hcol
      refine hout col ?_
      rintro ⟨ha, hb2⟩
      exact hcol ⟨helig, ha, by omega⟩
    · intro col _ hc1 hc2
      exact hin col hc1 (by omega)
    · rw [hflag]
      constructor
      · rintro (h | ⟨col, hc1, hc2, hc3⟩)
        · exact Or.inl h
        · exact Or.inr ⟨helig, col, hc1, by omega, hc3⟩
      · rintro (h | ⟨-, col, hc1, hc2, hc3⟩)
        · exact Or.inl h
        · exact Or.inr ⟨col, hc1, by omega, hc3⟩
  · rw [if_neg helig]
    refine ⟨hg, hm, fun col _ => ⟨rfl, rfl⟩,
      fun col hco _ _ => absurd hco helig, ?_, fun _ => rfl⟩
    constructor
    · intro h
      exact Or.inl h
    · rintro (h | ⟨hco, -⟩)
      · exact h
      · exact absurd hco helig

/-- Helper: full characterization of the removal loop over a disjoint,
bounded cluster list. -/
theorem removalLoop_spec (cur : ℚ) :
    ∀ (groups : List (Nat × Nat)) (g : Grid) (m : MatchGrid) (b : Bool),
      (∀ grp ∈ groups, grp.1 ≤ grp.2 ∧ grp.2 < COLS) →
      groups.Pairwise (fun a b => a.2 + 1 < b.1) →
      g.length = COLS → m.length = COLS →
      (groups.foldl (clearGroupCols cur) (g, m, b)).1.length = COLS ∧
      (groups.foldl (clearGroupCols cur) (g, m, b)).2.1.length = COLS ∧
      (∀ col, (∀ grp ∈ groups,
          ¬((grp.2 : ℚ) + 1 ≤ cur ∧ grp.1 ≤ col ∧ col ≤ grp.2)) →
        (groups.foldl (clearGroupCols cur) (g, m, b)).1.getD col [] =
          g.getD col [] ∧
        (groups.foldl (clearGroupCols cur) (g, m, b)).2.1.getD col [] =
          m.getD col []) ∧
      (∀ grp ∈ groups, (grp.2 : ℚ) + 1 ≤ cur →
        ∀ col, grp.1 ≤ col → col ≤ grp.2 →
        (groups.foldl (clearGroupCols cur) (g, m, b)).1.getD col [] =
          (if (m.getD col []).any isRemovable then
            removeRows (g.getD col []) (rowsToRemove (m.getD col []))
          else g.getD col []) ∧
        (groups.foldl (clearGroupCols cur) (g, m, b)).2.1.getD col [] =
          (if (m.getD col []).any isRemovable then
            removeRows (m.getD col []) (rowsToRemove (m.getD col []))
          else m.getD col [])) ∧
      ((groups.foldl (clearGroupCols cur) (g, m, b)).2.2 = true ↔
        b = true ∨ ∃ grp ∈ groups, (grp.2 : ℚ) + 1 ≤ cur ∧
          ∃ col, grp.1 ≤ col ∧ col ≤ grp.2 ∧
            (m.getD col []).any isRemovable = true) ∧
      ((groups.foldl (clearGroupCols cur) (g, m, b)).2.2 = false →
        groups.foldl (clearGroupCols cur) (g, m, b) = (g, m, b)) := by
  intro groups
  induction groups with
  | nil =>
    intro g m b _ _ hg hm
    refine ⟨hg, hm, fun col _ => ⟨rfl, rfl⟩,
      fun grp hgrp => absurd hgrp (List.not_mem_nil grp), ?_, fun _ => rfl⟩
    simp
  | cons grp rest ih =>
    intro g m b hwf hpw hg hm
    rw [List.foldl_cons]
    have hwfg := hwf grp (List.mem_cons_self _ _)
    obtain ⟨c1, c2, cout, cin, cflag, cid⟩ :=
      clearGroupCols_spec cur grp g m b hwfg.1 hwfg.2 hg hm
    have hdisj : ∀ q ∈ rest, grp.2 + 1 < q.1 :=
      fun q hq => List.rel_of_pairwise_cons hpw hq
    obtain ⟨i1, i2, iout, iin, iflag, iid⟩ := ih
      (clearGroupCols cur (g, m, b) grp).1
      (clearGroupCols cur (g, m, b) grp).2.1
      (clearGroupCols cur (g, m, b) grp).2.2
      (fun q hq => hwf q (List.mem_cons_of_mem _ hq))
      (List.Pairwise.of_cons hpw) c1 c2
    have hacc : ((clearGroupCols cur (g, m, b) grp).1,
        (clearGroupCols cur (g, m, b) grp).2.1,
        (clearGroupCols cur (g, m, b) grp).2.2) =
        clearGroupCols cur (g, m, b) grp := rfl
    rw [hacc] at i1 i2 iout iin iflag iid
    -- columns of the later clusters keep the first cluster's columns intact
    have hrestSame : ∀ q ∈ rest, ∀ col, q.1 ≤ col → col ≤ q.2 →
        (clearGroupCols cur (g, m, b) grp).2.1.getD col [] =
          m.getD col [] := by
      intro q hq col hc1 hc2
      have := hdisj q hq
      exact (cout col (by omega)).2
    refine ⟨i1, i2, ?_, ?_, ?_, ?_⟩
    · intro col hcol
      obtain ⟨io1, io2⟩ := iout col
        (fun q hq => hcol q (List.mem_cons_of_mem _ hq))
      obtain ⟨co1, co2⟩ := cout col (hcol grp (List.mem_cons_self _ _))
      rw [io1, io2, co1, co2]
      exact ⟨rfl, rfl⟩
    · intro q hq helig col hc1 hc2
      rcases List.mem_cons.mp hq with rfl | hq'
      · -- the head cluster: later clusters do not touch its columns
        obtain ⟨cc1, cc2⟩ := cin col helig hc1 hc2
        have hnone : ∀ q' ∈ rest,
            ¬((q'.2 : ℚ) + 1 ≤ cur ∧ q'.1 ≤ col ∧ col ≤ q'.2) := by
          intro q' hq'
          have := hdisj q' hq'
          rintro ⟨-, hcc1, hcc2⟩
          omega
        obtain ⟨io1, io2⟩ := iout col hnone
        rw [io1, io2, cc1, cc2]
        exact ⟨rfl, rfl⟩
      · -- a later cluster: its columns were untouched by the head cluster
        obtain ⟨ii1, ii2⟩ := iin q hq' helig col hc1 hc2
        have hd := hdisj q hq'
        obtain ⟨co1, co2⟩ := cout col (by rintro ⟨-, hcc1, hcc2⟩; omega)
        rw [ii1, ii2, co1, co2]
        exact ⟨rfl, rfl⟩
    · rw [iflag, cflag]
      constructor
      · rintro ((h | ⟨helig, col, hc1, hc2, hc3⟩) | ⟨q, hq, helig, col, hc1, hc2, hc3⟩)
        · exact Or.inl h
        · exact Or.inr ⟨grp, List.mem_cons_self _ _, helig, col, hc1, hc2, hc3⟩
        · refine Or.inr ⟨q, List.mem_cons_of_mem _ hq, helig, col, hc1, hc2, ?_⟩
          rw [← hrestSame q hq col hc1 hc2]
          exact hc3
      · rintro (h | ⟨q, hq, helig, col, hc1, hc2, hc3⟩)
        · exact Or.inl (Or.inl h)
        · rcases List.mem_cons.mp hq with rfl | hq'
          · exact Or.inl (Or.inr ⟨helig, col, hc1, hc2, hc3⟩)
          · refine Or.inr ⟨q, hq', helig, col, hc1, hc2, ?_⟩
            rw [hrestSame q hq' col hc1 hc2]
            exact hc3
    · intro hfalse
      have hmid : (clearGroupCols cur (g, m, b) grp).2.2 = false := by
        cases hmm : (clearGroupCols cur (g, m, b) grp).2.2 with
        | false => rfl
        | true =>
          exfalso
          have := iflag.mpr (Or.inl hmm)
          rw [hfalse] at this
          exact Bool.false_ne_true this
      rw [iid hfalse, cid hmid]

/-- Helper: zipping a match column with itself and keeping the
non-removable entries is a plain filter. -/
theorem zip_self_filter_map (l : List (Option ℚ)) :
    ((l.zip l).filter fun av => !isRemovable av.2).map Prod.fst =
      l.filter fun v => !isRemovable v := by
  induction l with
  | nil => rfl
  | cons a l ih =>
    rw [List.zip_cons_cons, List.filter_cons, List.filter_cons]
    by_cases h : (!isRemovable a) = true
    · rw [if_pos h, if_pos h, List.map_cons, ih]
    · rw [if_neg h, if_neg h, ih]

/-- Helper: a column with no removable cell is unchanged by the
specification-side removal. -/
theorem removedColumn_of_no_removable (gcol : List Nat)
    (mcol : List (Option ℚ)) (hlen : gcol.length = mcol.length)
    (h : mcol.any isRemovable = false) : removedColumn gcol mcol = gcol := by
  unfold removedColumn
  have hall : ∀ av ∈ gcol.zip mcol, (!isRemovable av.2) = true := by
    intro av hav
    have hmem := (List.of_mem_zip hav).2
    have hfalse := List.any_eq_false.mp h av.2 hmem
    cases hvv : isRemovable av.2 with
    | false => rfl
    | true => exact absurd hvv hfalse
  rw [List.filter_eq_self.mpr hall, List.map_fst_zip _ _ (by omega)]

/-- Helper: a match column with no removable cell is unchanged by the
specification-side removal. -/
theorem removedMatchColumn_of_no_removable (mcol : List (Option ℚ))
    (h : mcol.any isRemovable = false) : removedMatchColumn mcol = mcol := by
  unfold removedMatchColumn
  refine List.filter_eq_self.mpr ?_
  intro v hv
  have hfalse := List.any_eq_false.mp h v hv
  cases hvv : isRemovable v with
  | false => rfl
  | true => exact absurd hvv hfalse

/-- Helper: the removal phase when something was removed: reset and
re-detect. -/
theorem clearPhase_of_flag_true (s : State) (cur : ℚ)
    (hflag : (removalLoop cur s.grid s.matched
      (findGroups s.matched)).2.2 = true) :
    s.clearPhase cur = State.resetMatches
      { s with
        grid := (removalLoop cur s.grid s.matched (findGroups s.matched)).1
        matched :=
          (removalLoop cur s.grid s.matched (findGroups s.matched)).2.1 } := by
  simp only [State.clearPhase]
  rw [if_pos hflag]

/-- Helper: the removal phase when nothing was removed: only the loop's
(unchanged) grid and match grid are written back. -/
theorem clearPhase_of_flag_false (s : State) (cur : ℚ)
    (hflag : (removalLoop cur s.grid s.matched
      (findGroups s.matched)).2.2 = false) :
    s.clearPhase cur =
      { s with
        grid := (removalLoop cur s.grid s.matched (findGroups s.matched)).1
        matched :=
          (removalLoop cur s.grid s.matched (findGroups s.matched)).2.1 } := by
  simp only [State.clearPhase]
  rw [if_neg (by rw [hflag]; exact Bool.false_ne_true)]

/-- Helper: the removal phase never changes the grid beyond the removal
loop itself. -/
theorem clearPhase_grid (s : State) (cur : ℚ) :
    (s.clearPhase cur).grid =
      (removalLoop cur s.grid s.matched (findGroups s.matched)).1 := by
  by_cases hf : (removalLoop cur s.grid s.matched
      (findGroups s.matched)).2.2 = true
  · rw [clearPhase_of_flag_true s cur hf]
    rfl
  · rw [clearPhase_of_flag_false s cur
      (by cases hb : (removalLoop cur s.grid s.matched
          (findGroups s.matched)).2.2 with
        | false => rfl
        | true => exact absurd hb hf)]

/-- C1: during the removal phase of a tick, a cluster has cells removed
only when the current timeline position is at or past `cluster.end + 1`;
when that holds, exactly the cells with sweep progress ≥ 1 are removed
from both the grid column and the match column, removals within each
column applied from the highest row index downward; after any removal the
match structure is fully reset and detection re-runs over the
post-removal grid; if no cluster is eligible (or nothing is removable),
the phase leaves the whole state unchanged. -/
theorem cluster_removal_spec (s : State) (current : ℚ)
    (hg : s.grid.length = COLS) (hm : s.matched.length = COLS)
    (hlen : ∀ c, c < COLS →
      (s.grid.getD c []).length = (s.matched.getD c []).length) :
    ((∀ grp ∈ findGroups s.matched, current < (grp.2 : ℚ) + 1) →
      s.clearPhase current = s) ∧
    (∀ grp ∈ findGroups s.matched, (grp.2 : ℚ) + 1 ≤ current →
      ∀ col, grp.1 ≤ col → col ≤ grp.2 →
        (s.clearPhase current).grid.getD col [] =
          removedColumn (s.grid.getD col []) (s.matched.getD col []) ∧
        (removalLoop current s.grid s.matched
            (findGroups s.matched)).2.1.getD col [] =
          removedMatchColumn (s.matched.getD col [])) ∧
    (∀ col, (∀ grp ∈ findGroups s.matched,
        ¬((grp.2 : ℚ) + 1 ≤ current ∧ grp.1 ≤ col ∧ col ≤ grp.2)) →
      (s.clearPhase current).grid.getD col [] = s.grid.getD col []) ∧
    (∀ col, (rowsToRemove (s.matched.getD col [])).Pairwise (· > ·)) ∧
    ((∃ grp ∈ findGroups s.matched, (grp.2 : ℚ) + 1 ≤ current ∧
        ∃ col, grp.1 ≤ col ∧ col ≤ grp.2 ∧
          (s.matched.getD col []).any isRemovable = true) →
      (s.clearPhase current).matched =
        detectMatches (s.clearPhase current).grid
          (growMatched (s.clearPhase current).grid
            (List.replicate COLS []))) ∧
    (¬(∃ grp ∈ findGroups s.matched, (grp.2 : ℚ) + 1 ≤ current ∧
        ∃ col, grp.1 ≤ col ∧ col ≤ grp.2 ∧
          (s.matched.getD col []).any isRemovable = true) →
      s.clearPhase current = s) := by
  obtain ⟨hwfmem, hwfpw⟩ := findGroups_wf s.matched
  obtain ⟨L1, L2, Lout, Lin, Lflag, Lid⟩ := removalLoop_spec current
    (findGroups s.matched) s.grid s.matched false hwfmem hwfpw hg hm
  have hrdef : removalLoop current s.grid s.matched (findGroups s.matched) =
      (findGroups s.matched).foldl (clearGroupCols current)
        (s.grid, s.matched, false) := rfl
  refine ⟨fun h => clearPhase_of_ineligible s current h, ?_, ?_, ?_, ?_, ?_⟩
  · intro grp hgrp helig col hc1 hc2
    have hcol : col < COLS := by
      have := (hwfmem grp hgrp).2
      omega
    have hl := hlen col hcol
    obtain ⟨Li1, Li2⟩ := Lin grp hgrp helig col hc1 hc2
    rw [← hrdef] at Li1 Li2
    constructor
    · rw [clearPhase_grid, Li1]
      by_cases hb : (s.matched.getD col []).any isRemovable = true
      · rw [if_pos hb, removeRows_rowsToRemove _ _ hl]
        rfl
      · rw [if_neg hb,
          removedColumn_of_no_removable _ _ hl
            (by cases hbb : (s.matched.getD col []).any isRemovable with
              | false => rfl
              | true => exact absurd hbb hb)]
    · rw [Li2]
      by_cases hb : (s.matched.getD col []).any isRemovable = true
      · rw [if_pos hb, removeRows_rowsToRemove _ _ rfl,
          zip_self_filter_map]
        rfl
      · rw [if_neg hb,
          removedMatchColumn_of_no_removable _
            (by cases hbb : (s.matched.getD col []).any isRemovable with
              | false => rfl
              | true => exact absurd hbb hb)]
  · intro col hno
    obtain ⟨Lo1, -⟩ := Lout col hno
    rw [← hrdef] at Lo1
    rw [clearPhase_grid, Lo1]
  · intro col
    exact rowsToRemove_sorted _
  · intro hex
    have hflag : (removalLoop current s.grid s.matched
        (findGroups s.matched)).2.2 = true := by
      rw [hrdef]
      exact Lflag.mpr (Or.inr hex)
    rw [clearPhase_of_flag_true s current hflag]
    rfl
  · intro hnex
    have hflag : (removalLoop current s.grid s.matched
        (findGroups s.matched)).2.2 = false := by
      cases hb : (removalLoop current s.grid s.matched
          (findGroups s.matched)).2.2 with
      | false => rfl
      | true =>
        exfalso
        rw [hrdef] at hb
        rcases Lflag.mp hb with h | h
        · exact Bool.false_ne_true h
        · exact hnex h
    have hid : removalLoop current s.grid s.matched (findGroups s.matched) =
        (s.grid, s.matched, false) := by
      rw [hrdef]
      exact Lid (by rw [← hrdef]; exact hflag)
    rw [clearPhase_of_flag_false s current hflag, hid]

/-- Witness for C1 on the sample cluster at timeline position 6: column 3
of the cluster `[3,4]` loses exactly its two full-progress cells from the
grid and the match grid. -/
theorem cluster_removal_spec_witness :
    (sampleState.clearPhase 6).grid.getD 3 [] =
      removedColumn (sampleState.grid.getD 3 [])
        (sampleState.matched.getD 3 []) ∧
    (removalLoop 6 sampleState.grid sampleState.matched
        (findGroups sampleState.matched)).2.1.getD 3 [] =
      removedMatchColumn (sampleState.matched.getD 3 []) :=
  (cluster_removal_spec sampleState 6 (by decide) (by decide)
      (by decide)).2.1 (3, 4) (by decide)
    (by push_cast; norm_num) 3 le_rfl (by decide)

end Fumines
